import Mathlib

/-!
Verification of the RSML front end: a shallow embedding of the lexer in
`crates/rbx-rsml/src/lexer.rs` (a `logos`-generated scanner) and of the
snapshot middleware in `src/snapshot_middleware/rsml.rs`.

Modelling conventions:
* Source text is a `String`, scanned as its `List Char`.
* The `logos` scanner is modelled by maximal munch over the union of all
  token rules: at each position every rule reports the length of its longest
  prefix match, the longest wins, and ties at equal length are broken by the
  rule priority (explicit `priority = n` attributes from the source; rules
  without an explicit priority get their computed default, which is at least
  2 and therefore above the `Text` rules' explicit priority 1).
* When no rule matches, one code point is skipped and no token is produced,
  mirroring `lex_rsml` filtering out `Err` results.
* `f64` values are modelled as exact rationals (`ℚ`); the mantissa grammar
  matched by the lexer denotes decimal numbers exactly, and the only
  arithmetic performed on them by the lexer is division by 100.
-/

namespace Rsml

/-- The character class `[a-zA-Z0-9"'_-]` used by every `Text` rule
(`TextType`) in lexer.rs. `Char.isAlpha`/`Char.isDigit` are ASCII-only,
matching the ASCII-only regex classes. -/
def isTextChar (c : Char) : Bool :=
  c.isAlpha || c.isDigit || c == '"' || c == '\'' || c == '_' || c == '-'

/-- Hexadecimal digits `[0-9a-fA-F]`, the class of the `ColorHex` rule. -/
def isHexDigit (c : Char) : Bool :=
  c.isDigit || (decide (97 ≤ c.val) && decide (c.val ≤ 102))
    || (decide (65 ≤ c.val) && decide (c.val ≤ 70))

/-- The skip class `[\n\f\r ]` from `#[logos(skip r"[\n\f\r ]+")]`.
Note: it does not contain the tab character. -/
def isSkipWs (c : Char) : Bool :=
  c == '\n' || c == '\x0c' || c == '\r' || c == ' '

/-- The class `[^\[\n\f\r]` closing the single-line comment rule
`-- *[^\[\n\f\r]+`. -/
def isCommentSingleChar (c : Char) : Bool :=
  !(c == '[' || c == '\n' || c == '\x0c' || c == '\r')

/-- `startsWith pat cs` holds when `pat` is a prefix of `cs`. -/
def startsWith : List Char → List Char → Bool
  | [], _ => true
  | _ :: _, [] => false
  | p :: ps, c :: cs => p == c && startsWith ps cs

/-- Length of the longest prefix of `cs` whose characters all satisfy `p`. -/
def runLen (p : Char → Bool) : List Char → Nat
  | [] => 0
  | c :: cs => if p c then runLen p cs + 1 else 0

/-- Length of the longest prefix of decimal digits. -/
def digRun (cs : List Char) : Nat := runLen Char.isDigit cs

/-! ## The token data model (lexer.rs lines 4-47) -/

/-- `TextType` from lexer.rs: the payload of a `Token::Text`, carrying the
lexeme with its sigil stripped. -/
inductive TextType where
  | NonSpecial (s : String)
  | SelectorName (s : String)
  | SelectorTagOrEnumPart (s : String)
  | SelectorStateOrEnumPart (s : String)
  | SelectorPsuedo (s : String)
  | Argument (s : String)
  | Variable (s : String)
  | PsuedoProperty (s : String)
deriving DecidableEq

/-- `DataType` from lexer.rs. `f64` payloads are modelled as `ℚ`. The
composite variants (`UDim` …) are never produced by the lexer; they exist
for the downstream tree builder. -/
inductive DataType where
  | ColorHex (s : String)
  | ColorTw (s : String)
  | ColorCss (s : String)
  | ColorBc (s : String)
  | StringSingle (s : String)
  | NumberOffset (v : ℚ)
  | NumberScale (v : ℚ)
  | Number (v : ℚ)
  | Bool (b : Bool)
  | Tuple (n : Nat)
  | UDim (scale offset : ℚ)
  | UDim2 (xs xo ys yo : ℚ)
  | Vec2 (x y : ℚ)
  | Rect (a b c d : ℚ)
  | Vec3 (x y z : ℚ)
  | Color3 (r g b : ℚ)
  | Font (s : String)
  | OwnedString (s : String)
deriving DecidableEq

/-- `Operator` from lexer.rs. -/
inductive Operator where
  | Plus
  | Sub
  | Mult
  | Div
  | Pow
  | Mod
deriving DecidableEq

/-- `Token` from lexer.rs. -/
inductive Token where
  | CommentMultiStart
  | CommentMultiEnd
  | CommentSingle
  | Text (t : TextType)
  | EnumKeyword
  | DataType (d : DataType)
  | Operator (o : Operator)
  | ScopeOpen
  | ScopeClose
  | SectionClose
  | ListDelimiter
  | Equals
  | Colon
  | ScopeToChildren
  | ScopeToDescendants
  | TupleOpen
  | TupleClose
  | MacroDeclaration
  | PriorityDeclaration
  | DeriveDeclaration
deriving DecidableEq

/-! ## Color palettes, transcribed from the three palette regexes -/

def twNames : List String :=
  ["slate", "gray", "zinc", "neutral", "stone", "red", "orange", "amber", "yellow", "lime",
   "green", "emerald", "teal", "cyan", "sky", "blue", "indigo", "violet", "purple", "fuchsia",
   "pink", "rose"]

def twTones : List String :=
  ["950", "900", "800", "700", "600", "500", "400", "300", "200", "100", "50"]

def cssNames : List String :=
  ["aliceblue", "antiquewhite", "aqua", "aquamarine", "azure", "beige", "bisque", "black",
   "blanchedalmond", "blue", "blueviolet", "brown", "burlywood", "cadetblue", "chartreuse",
   "chocolate", "coral", "cornflowerblue", "cornsilk", "crimson", "cyan", "darkblue",
   "darkcyan", "darkgoldenrod", "darkgray", "darkgreen", "darkgrey", "darkkhaki",
   "darkmagenta", "darkolivegreen", "darkorange", "darkorchid", "darkred", "darksalmon",
   "darkseagreen", "darkslateblue", "darkslategray", "darkslategrey", "darkturquoise",
   "darkviolet", "deeppink", "deepskyblue", "dimgray", "dimgrey", "dodgerblue", "firebrick",
   "floralwhite", "forestgreen", "fuchsia", "gainsboro", "ghostwhite", "goldenrod", "gold",
   "gray", "green", "greenyellow", "grey", "honeydew", "hotpink", "indianred", "indigo",
   "ivory", "khaki", "lavenderblush", "lavender", "lawngreen", "lemonchiffon", "lightblue",
   "lightcoral", "lightcyan", "lightgoldenrodyellow", "lightgray", "lightgreen", "lightgrey",
   "lightpink", "lightsalmon", "lightseagreen", "lightskyblue", "lightslategray",
   "lightslategrey", "lightsteelblue", "lightyellow", "lime", "limegreen", "linen",
   "magenta", "maroon", "mediumaquamarine", "mediumblue", "mediumorchid", "mediumpurple",
   "mediumseagreen", "mediumslateblue", "mediumspringgreen", "mediumturquoise",
   "mediumvioletred", "midnightblue", "mintcream", "mistyrose", "moccasin", "navajowhite",
   "navy", "oldlace", "olive", "olivedrab", "orange", "orangered", "orchid", "palegoldenrod",
   "palegreen", "paleturquoise", "palevioletred", "papayawhip", "peachpuff", "peru", "pink",
   "plum", "powderblue", "purple", "rebeccapurple", "red", "rosybrown", "royalblue",
   "saddlebrown", "salmon", "sandybrown", "seagreen", "seashell", "sienna", "silver",
   "skyblue", "slateblue", "slategray", "slategrey", "snow", "springgreen", "steelblue",
   "tan", "teal", "thistle", "tomato", "turquoise", "violet", "wheat", "white", "whitesmoke",
   "yellow", "yellowgreen"]

def bcNames : List String :=
  ["white", "grey", "lightyellow", "brickyellow", "lightgreen", "lightreddishviolet",
   "pastelblue", "lightorangebrown", "nougat", "brightred", "medreddishviolet",
   "brightblue", "brightyellow", "earthorange", "black", "darkgrey", "darkgreen",
   "mediumgreen", "ligyellowichorange", "brightgreen", "darkorange", "lightbluishviolet",
   "transparent", "trred", "trlgblue", "trblue", "tryellow", "lightblue",
   "trflureddishorange", "trgreen", "trflugreen", "phosphwhite", "lightred", "mediumred",
   "mediumblue", "lightgrey", "brightviolet", "bryellowishorange", "brightorange",
   "brightbluishgreen", "earthyellow", "brightbluishviolet", "trbrown", "mediumbluishviolet",
   "trmedireddishviolet", "medyellowishgreen", "medbluishgreen", "lightbluishgreen",
   "bryellowishgreen", "ligyellowishgreen", "medyellowishorange", "brreddishorange",
   "brightreddishviolet", "lightorange", "trbrightbluishviolet", "darknougat", "silver",
   "neonorange", "neongreen", "sandblue", "sandviolet", "mediumorange", "sandyellow",
   "earthblue", "earthgreen", "trflublue", "sandbluemetallic", "sandvioletmetallic",
   "sandyellowmetallic", "darkgreymetallic", "blackmetallic", "lightgreymetallic",
   "sandgreen", "sandred", "darkred", "trfluyellow", "trflured", "gunmetallic",
   "redflipflop", "yellowflipflop", "silverflipflop", "curry", "fireyellow",
   "flameyellowishorange", "reddishbrown", "flamereddishorange", "mediumstonegrey",
   "royalblue", "darkroyalblue", "brightreddishlilac", "darkstonegrey", "lemonmetalic",
   "lightstonegrey", "darkcurry", "fadedgreen", "turquoise", "lightroyalblue",
   "mediumroyalblue", "brown", "reddishlilac", "lightlilac", "brightpurple", "lightpurple",
   "lightpink", "lightbrickyellow", "warmyellowishorange", "coolyellow", "doveblue",
   "mediumlilac", "slimegreen", "smokygrey", "darkblue", "parsleygreen", "steelblue",
   "stormblue", "lapis", "darkindigo", "seagreen", "shamrock", "fossil", "mulberry",
   "forestgreen", "cadetblue", "electricblue", "eggplant", "moss", "artichoke", "sagegreen",
   "ghostgrey", "lilac", "plum", "olivine", "laurelgreen", "quillgrey", "crimson", "mint",
   "babyblue", "carnationpink", "persimmon", "maroon", "gold", "daisyorange", "pearl",
   "fog", "salmon", "terracotta", "cocoa", "wheat", "buttermilk", "mauve", "sunrise",
   "tawny", "rust", "cashmere", "khaki", "lilywhite", "seashell", "burgundy", "cork",
   "burlap", "beige", "oyster", "pinecone", "fawnbrown", "hurricanegrey", "cloudygrey",
   "linen", "copper", "mediumbrown", "bronze", "flint", "darktaupe", "burntsienna",
   "institutionalwhite", "midgray", "reallyblack", "reallyred", "deeporange", "alder",
   "dustyrose", "olive", "newyeller", "reallyblue", "navyblue", "deepblue", "cyan",
   "cgabrown", "magenta", "pink", "teal", "toothpaste", "limegreen", "camo", "grime",
   "lavender", "pastellightblue", "pastelorange", "pastelviolet", "pastelbluegreen",
   "pastelgreen", "pastelyellow", "pastelbrown", "royalpurple", "hotpink"]

/-! ## Per-rule longest-match functions -/

/-- Longest match of a fixed `#[token("…")]` literal. -/
def mPref (pat : List Char) (cs : List Char) : Option Nat :=
  if startsWith pat cs then some pat.length else none

/-- Longest match of one of the `Text` rules: a fixed sigil followed by a
nonempty run of `isTextChar` characters. The plain identifier rule is the
case `sig = []`. -/
def mSigil (sig : List Char) (cs : List Char) : Option Nat :=
  if startsWith sig cs then
    let n := runLen isTextChar (cs.drop sig.length)
    if n = 0 then none else some (sig.length + n)
  else none

/-- Longest match of `-- *[^\[\n\f\r]+` (single-line comment). Since the
space is itself in the trailing class, the language of the part after `--`
is exactly the nonempty strings over `isCommentSingleChar`. -/
def mCommentSingle (cs : List Char) : Option Nat :=
  if startsWith ['-', '-'] cs then
    let n := runLen isCommentSingleChar (cs.drop 2)
    if n = 0 then none else some (2 + n)
  else none

/-- Length of the longest name in `names` that is a prefix of `cs`. -/
def longestNameLen (names : List String) (cs : List Char) : Option Nat :=
  names.foldl
    (fun acc n =>
      if startsWith n.toList cs then
        match acc with
        | none => some n.toList.length
        | some m => some (max m n.toList.length)
      else acc)
    none

/-- Longest match of the `tw:` palette rule, including its optional
`:(tone)` suffix. -/
def mColorTw (cs : List Char) : Option Nat :=
  if startsWith ['t', 'w', ':'] cs then
    match longestNameLen twNames (cs.drop 3) with
    | none => none
    | some b =>
      if startsWith [':'] (cs.drop (3 + b)) then
        match longestNameLen twTones (cs.drop (3 + b + 1)) with
        | none => some (3 + b)
        | some t => some (3 + b + 1 + t)
      else some (3 + b)
  else none

/-- Longest match of the `css:` palette rule. -/
def mColorCss (cs : List Char) : Option Nat :=
  if startsWith ['c', 's', 's', ':'] cs then
    match longestNameLen cssNames (cs.drop 4) with
    | none => none
    | some b => some (4 + b)
  else none

/-- Longest match of the `bc:` palette rule. -/
def mColorBc (cs : List Char) : Option Nat :=
  if startsWith ['b', 'c', ':'] cs then
    match longestNameLen bcNames (cs.drop 3) with
    | none => none
    | some b => some (3 + b)
  else none

/-- Longest match of `#[0-9a-fA-F]+`. -/
def mColorHex (cs : List Char) : Option Nat :=
  if startsWith ['#'] cs then
    let n := runLen isHexDigit (cs.drop 1)
    if n = 0 then none else some (1 + n)
  else none

/-- Longest match of a quoted string `q([^q\n\f\r])*q`. The body class
excludes the quote, so the closing quote is forced to be the first
occurrence after the opening one. -/
def mString (q : Char) (cs : List Char) : Option Nat :=
  if startsWith [q] cs then
    let n := runLen (fun c => !(c == q || c == '\n' || c == '\x0c' || c == '\r')) (cs.drop 1)
    if startsWith [q] (cs.drop (1 + n)) then some (n + 2) else none
  else none

/-- Longest match of the unsigned mantissa `([0-9]+([.][0-9]*)?|[.][0-9]+)`.
Greedy scanning computes the longest match because the continuation
characters (`.` and digits) are never useful to give back: taking them
always yields a longer accepted string. -/
def numCoreLenNoSign (cs : List Char) : Option Nat :=
  let d := digRun cs
  if d = 0 then
    if startsWith ['.'] cs then
      let f := digRun (cs.drop 1)
      if f = 0 then none else some (1 + f)
    else none
  else
    if startsWith ['.'] (cs.drop d) then some (d + 1 + digRun (cs.drop (d + 1)))
    else some d

/-- Longest match of the signed mantissa `[+-]?([0-9]+([.][0-9]*)?|[.][0-9]+)`. -/
def numCoreLen (cs : List Char) : Option Nat :=
  if startsWith ['+'] cs || startsWith ['-'] cs then
    (numCoreLenNoSign (cs.drop 1)).map (· + 1)
  else numCoreLenNoSign cs

/-- Longest match of a mantissa followed by a fixed suffix (`px` or `%`).
The suffix begins with a non-digit, non-dot character, so appending it never
changes the greedy mantissa scan. -/
def mNumSuffix (suffix : List Char) (cs : List Char) : Option Nat :=
  match numCoreLen cs with
  | none => none
  | some n => if startsWith suffix (cs.drop n) then some (n + suffix.length) else none

/-- Longest match of `rbxassetid://[0-9]+`. -/
def mAsset (cs : List Char) : Option Nat :=
  if startsWith ['r', 'b', 'x', 'a', 's', 's', 'e', 't', 'i', 'd', ':', '/', '/'] cs then
    let n := digRun (cs.drop 13)
    if n = 0 then none else some (13 + n)
  else none

/-- Longest match of the skip pattern `[\n\f\r ]+`. -/
def mSkip (cs : List Char) : Option Nat :=
  let n := runLen isSkipWs cs
  if n = 0 then none else some n

/-! ## Value construction at lex time -/

/-- Accumulate a digit string into a natural number. -/
def digitsVal (cs : List Char) : Nat :=
  cs.foldl (fun a c => a * 10 + (c.toNat - 48)) 0

/-- Model of `str::parse::<f64>` restricted to the decimal shapes the lexer
can hand it: optional sign, then digits with an optional fraction, with no
trailing garbage. Returns `none` exactly when Rust's parse would return
`Err` on such a shape. -/
def parseF64Opt (cs : List Char) : Option ℚ :=
  let sgn : ℚ := if startsWith ['-'] cs then -1 else 1
  let rest := if startsWith ['-'] cs || startsWith ['+'] cs then cs.drop 1 else cs
  let d := digRun rest
  let ip : ℚ := (digitsVal (rest.take d) : ℚ)
  let rest2 := rest.drop d
  if startsWith ['.'] rest2 then
    let f := digRun (rest2.drop 1)
    if rest2.drop (1 + f) = [] ∧ 0 < d + f then
      some (sgn * (ip + (digitsVal ((rest2.drop 1).take f) : ℚ) / (10 : ℚ) ^ f))
    else none
  else if rest2 = [] ∧ 0 < d then some (sgn * ip) else none

/-- The `NumberOffset`/`Number` callback value: parsed mantissa, or `0.0`
when parsing fails (lexer.rs lines 79-82 and 87-90). -/
def f64OrZero (cs : List Char) : ℚ :=
  match parseF64Opt cs with
  | some q => q
  | none => 0

/-- The `NumberScale` callback value: parsed mantissa divided by 100, or
`0.0` when parsing fails (lexer.rs lines 83-86). -/
def scaleOrZero (cs : List Char) : ℚ :=
  match parseF64Opt cs with
  | some q => q / 100
  | none => 0

/-- `str_clip` from lexer.rs: `&str[start..str.len() - end]`. -/
def str_clip (cs : List Char) (start stop : Nat) : List Char :=
  (cs.drop start).take (cs.length - stop - start)

/-! ## The combined scanner -/

/-- One candidate: match length, rule priority, and the produced token
(`none` for the skip rule). -/
def cand (cs : List Char) (m : Option Nat) (prio : Nat) (mk : List Char → Option Token) :
    List (Nat × Nat × Option Token) :=
  match m with
  | none => []
  | some n => [(n, prio, mk (cs.take n))]

/-- All rules of the `Token` enum evaluated at the current position, each
contributing its longest match. Priorities: explicit ones are from the
source (`99`, `98`, `1`, `2`); rules without an explicit priority use their
`logos`-computed default, which is at least 2 — the only place defaults are
compared with another matching rule of equal length is against a `Text`
rule of priority 1. -/
def candidates (cs : List Char) : List (Nat × Nat × Option Token) :=
  cand cs (mSkip cs) 2 (fun _ => none)
  ++ cand cs (mPref ['-', '-', '[', '['] cs) 99 (fun _ => some .CommentMultiStart)
  ++ cand cs (mPref [']', ']'] cs) 99 (fun _ => some .CommentMultiEnd)
  ++ cand cs (mCommentSingle cs) 98 (fun _ => some .CommentSingle)
  ++ cand cs (mSigil [] cs) 1
      (fun l => some (.Text (.NonSpecial (String.mk l))))
  ++ cand cs (mSigil ['#'] cs) 1
      (fun l => some (.Text (.SelectorName (String.mk (str_clip l 1 0)))))
  ++ cand cs (mSigil ['.'] cs) 1
      (fun l => some (.Text (.SelectorTagOrEnumPart (String.mk (str_clip l 1 0)))))
  ++ cand cs (mSigil [':'] cs) 1
      (fun l => some (.Text (.SelectorStateOrEnumPart (String.mk (str_clip l 1 0)))))
  ++ cand cs (mSigil [':', ':'] cs) 1
      (fun l => some (.Text (.SelectorPsuedo (String.mk (str_clip l 2 0)))))
  ++ cand cs (mSigil ['$', '!'] cs) 1
      (fun l => some (.Text (.Argument (String.mk (str_clip l 2 0)))))
  ++ cand cs (mSigil ['$'] cs) 1
      (fun l => some (.Text (.Variable (String.mk (str_clip l 1 0)))))
  ++ cand cs (mSigil ['!'] cs) 1
      (fun l => some (.Text (.PsuedoProperty (String.mk (str_clip l 1 0)))))
  ++ cand cs (mPref ['E', 'n', 'u', 'm'] cs) 8 (fun _ => some .EnumKeyword)
  ++ cand cs (mColorTw cs) 2 (fun l => some (.DataType (.ColorTw (String.mk l))))
  ++ cand cs (mColorCss cs) 2 (fun l => some (.DataType (.ColorCss (String.mk l))))
  ++ cand cs (mColorBc cs) 2 (fun l => some (.DataType (.ColorBc (String.mk l))))
  ++ cand cs (mColorHex cs) 4 (fun l => some (.DataType (.ColorHex (String.mk l))))
  ++ cand cs (mString '\'' cs) 4
      (fun l => some (.DataType (.StringSingle (String.mk (str_clip l 1 1)))))
  ++ cand cs (mString '"' cs) 4
      (fun l => some (.DataType (.StringSingle (String.mk (str_clip l 1 1)))))
  ++ cand cs (mNumSuffix ['p', 'x'] cs) 4
      (fun l => some (.DataType (.NumberOffset (f64OrZero (str_clip l 0 2)))))
  ++ cand cs (mNumSuffix ['%'] cs) 4
      (fun l => some (.DataType (.NumberScale (scaleOrZero (str_clip l 0 1)))))
  ++ cand cs (numCoreLen cs) 4
      (fun l => some (.DataType (.Number (f64OrZero l))))
  ++ cand cs (mAsset cs) 4 (fun l => some (.DataType (.StringSingle (String.mk l))))
  ++ cand cs (mPref ['t', 'r', 'u', 'e'] cs) 8 (fun _ => some (.DataType (.Bool true)))
  ++ cand cs (mPref ['f', 'a', 'l', 's', 'e'] cs) 10 (fun _ => some (.DataType (.Bool false)))
  ++ cand cs (mPref ['+'] cs) 2 (fun _ => some (.Operator .Plus))
  ++ cand cs (mPref ['-'] cs) 2 (fun _ => some (.Operator .Sub))
  ++ cand cs (mPref ['*'] cs) 2 (fun _ => some (.Operator .Mult))
  ++ cand cs (mPref ['/'] cs) 2 (fun _ => some (.Operator .Div))
  ++ cand cs (mPref ['^'] cs) 2 (fun _ => some (.Operator .Pow))
  ++ cand cs (mPref ['%'] cs) 2 (fun _ => some (.Operator .Mod))
  ++ cand cs (mPref ['\x7b'] cs) 2 (fun _ => some .ScopeOpen)
  ++ cand cs (mPref ['\x7d'] cs) 2 (fun _ => some .ScopeClose)
  ++ cand cs (mPref [';'] cs) 2 (fun _ => some .SectionClose)
  ++ cand cs (mPref [','] cs) 2 (fun _ => some .ListDelimiter)
  ++ cand cs (mPref ['='] cs) 2 (fun _ => some .Equals)
  ++ cand cs (mPref [':'] cs) 2 (fun _ => some .Colon)
  ++ cand cs (mPref ['>'] cs) 2 (fun _ => some .ScopeToChildren)
  ++ cand cs (mPref ['>', '>'] cs) 4 (fun _ => some .ScopeToDescendants)
  ++ cand cs (mPref ['('] cs) 2 (fun _ => some .TupleOpen)
  ++ cand cs (mPref [')'] cs) 2 (fun _ => some .TupleClose)
  ++ cand cs (mPref ['@', 'm', 'a', 'c', 'r', 'o'] cs) 12 (fun _ => some .MacroDeclaration)
  ++ cand cs (mPref ['@', 'p', 'r', 'i', 'o', 'r', 'i', 't', 'y'] cs) 18
      (fun _ => some .PriorityDeclaration)
  ++ cand cs (mPref ['@', 'd', 'e', 'r', 'i', 'v', 'e'] cs) 14
      (fun _ => some .DeriveDeclaration)

/-- `a` beats `b` when it matches a longer span, or the same span with a
higher priority. -/
def better (a b : Nat × Nat × Option Token) : Bool :=
  decide (b.1 < a.1) || (decide (b.1 = a.1) && decide (b.2.1 < a.2.1))

/-- The winning candidate: longest match, ties broken by priority. -/
def pickBest (l : List (Nat × Nat × Option Token)) : Option (Nat × Nat × Option Token) :=
  l.foldl
    (fun acc c =>
      match acc with
      | none => some c
      | some b => if better c b then some c else some b)
    none

/-- One step of the winner fold: keep the better of the accumulator and
the next candidate. -/
def pb2 (a b : Nat × Nat × Option Token) : Nat × Nat × Option Token :=
  if better b a then b else a

/-- The scanning loop. Fuel only serves the termination checker: every step
consumes at least one character, so fuel equal to the input length gives the
same result as unbounded iteration. A position where no rule matches skips
one code point (the `Err` results filtered out by `lex_rsml`). -/
def lexAux : Nat → List Char → List Token
  | 0, _ => []
  | _ + 1, [] => []
  | fuel + 1, c :: rest =>
    match pickBest (candidates (c :: rest)) with
    | none => lexAux fuel rest
    | some (n, _, t) =>
      match t with
      | some tok => tok :: lexAux fuel ((c :: rest).drop (max n 1))
      | none => lexAux fuel ((c :: rest).drop (max n 1))

/-- `lex_rsml` from lexer.rs lines 151-158: scan the whole source, keeping
only the `Ok` tokens. -/
def lex_rsml (s : String) : List Token :=
  lexAux s.data.length s.data

/-! ## The tree builder

`parse_rsml`, `Arena` and `TokenTreeNode` are exported by the `rbx-rsml`
crate and consumed by `snapshot_middleware/rsml.rs`, but their sources are
not part of this tree; they are modelled from the specification (§3, §4.2:
arena of scope nodes rooted at index 0, tolerant statement-by-statement
builder). -/

/-- Modelled from the spec: `TokenTreeNode` (§3) — one lexical scope, with
its rules (selector string to ordered child-index lists), variables,
properties, optional priority and derive paths. The mappings are modelled
as insertion-ordered association lists (`vars` models the `variables` map,
whose Rust name is reserved in Lean). -/
structure TokenTreeNode where
  rules : List (String × List Nat)
  vars : List (String × DataType)
  properties : List (String × DataType)
  priority : Option Int
  derives : List String
deriving DecidableEq

/-- Modelled from the spec: `Arena` (§3) — owns all nodes by index; node 0
is the document root. -/
structure Arena where
  nodes : List TokenTreeNode
deriving DecidableEq

/-- `Arena::get`: look a node up by index. -/
def Arena.get (a : Arena) (i : Nat) : Option TokenTreeNode :=
  a.nodes.get? i

/-- A scope node with empty rules, variables, properties and derives and
unspecified priority. -/
def emptyNode : TokenTreeNode :=
  { rules := [], vars := [], properties := [], priority := none, derives := [] }

/-- Insert-or-overwrite into an association list (spec §4.2: later
definitions overwrite earlier ones within the same scope). -/
def upsert (l : List (String × DataType)) (k : String) (v : DataType) :
    List (String × DataType) :=
  match l with
  | [] => [(k, v)]
  | (k', v') :: rest => if k' = k then (k, v) :: rest else (k', v') :: upsert rest k v

/-- Append a child index under a selector key, keeping repeated selectors as
separate entries in declaration order (spec §4.2 tie-break policy). -/
def addRule (l : List (String × List Nat)) (k : String) (i : Nat) :
    List (String × List Nat) :=
  match l with
  | [] => [(k, [i])]
  | (k', idxs) :: rest =>
    if k' = k then (k', idxs ++ [i]) :: rest else (k', idxs) :: addRule rest k i

/-- Split the value tokens of a parenthesised group at the list delimiters. -/
def splitComponents (ts : List Token) : List (List Token) :=
  ts.foldr
    (fun t acc =>
      match t, acc with
      | Token.ListDelimiter, _ => [] :: acc
      | _, [] => [[t]]
      | _, g :: gs => (t :: g) :: gs)
    []

/-- Modelled from the spec: composite value construction (§4.2) — a fixed
arity-and-kind lookup: offset/scale components make the absolute-relative
pair types, bare numbers make the vector/rect types; anything else keeps a
`Tuple` arity marker. -/
def resolveComposite (parts : List (List Token)) : Option DataType :=
  match parts with
  | [[Token.DataType (DataType.NumberOffset a)], [Token.DataType (DataType.NumberOffset b)]] =>
    some (DataType.UDim2 0 a 0 b)
  | [[Token.DataType (DataType.NumberScale a)], [Token.DataType (DataType.NumberScale b)]] =>
    some (DataType.UDim2 a 0 b 0)
  | [[Token.DataType (DataType.NumberScale a)], [Token.DataType (DataType.NumberOffset b)]] =>
    some (DataType.UDim2 a 0 0 b)
  | [[Token.DataType (DataType.NumberOffset a)], [Token.DataType (DataType.NumberScale b)]] =>
    some (DataType.UDim2 0 a b 0)
  | [[Token.DataType (DataType.Number a)], [Token.DataType (DataType.Number b)]] =>
    some (DataType.Vec2 a b)
  | [[Token.DataType (DataType.Number a)], [Token.DataType (DataType.Number b)],
     [Token.DataType (DataType.Number c)]] =>
    some (DataType.Vec3 a b c)
  | [[Token.DataType (DataType.Number a)], [Token.DataType (DataType.Number b)],
     [Token.DataType (DataType.Number c)], [Token.DataType (DataType.Number d)]] =>
    some (DataType.Rect a b c d)
  | _ => some (DataType.Tuple parts.length)

/-- Modelled from the spec: resolve the token sequence of one assignment
right-hand side into a value — a single primitive stands alone, a
parenthesised comma-separated group builds a composite (§4.2); anything
else is unrecognized and dropped (§7). -/
def resolveValue (ts : List Token) : Option DataType :=
  match ts with
  | [Token.DataType d] => some d
  | Token.TupleOpen :: rest =>
    match rest.reverse with
    | Token.TupleClose :: mid => resolveComposite (splitComponents mid.reverse)
    | _ => none
  | _ => none

/-- The stored text of a selector-forming token (sigils already stripped by
the lexer), or `none` when the token cannot be part of a selector. -/
def selectorPart : Token → Option String
  | Token.Text (TextType.NonSpecial s) => some s
  | Token.Text (TextType.SelectorName s) => some s
  | Token.Text (TextType.SelectorTagOrEnumPart s) => some s
  | Token.Text (TextType.SelectorStateOrEnumPart s) => some s
  | Token.Text (TextType.SelectorPsuedo s) => some s
  | Token.ScopeToChildren => some ">"
  | Token.ScopeToDescendants => some ">>"
  | _ => none

/-- Builder mode: at statement level, or collecting one assignment or
declaration argument. -/
inductive PMode where
  | Top
  | AssignVar (name : String) (acc : List Token)
  | AssignProp (name : String) (acc : List Token)
  | PriorityArg
  | DeriveArg
deriving DecidableEq

/-- Builder state: the arena under construction, the stack of open scope
indices (the document root at the bottom), and the selector text collected
for the next rule. -/
structure PState where
  nodes : List TokenTreeNode
  stack : List Nat
  selector : String
  mode : PMode
deriving DecidableEq

/-- Index of the scope currently being filled. -/
def PState.cur (st : PState) : Nat :=
  st.stack.headD 0

/-- Rewrite one node of the arena in place. -/
def modifyNode (st : PState) (i : Nat) (f : TokenTreeNode → TokenTreeNode) : PState :=
  match st.nodes.get? i with
  | none => st
  | some nd => { st with nodes := st.nodes.set i (f nd) }

/-- Open a nested rule: append a fresh node, record it under the collected
selector in the parent's rules, and make it the current scope. -/
def pushScope (st : PState) : PState :=
  let idx := st.nodes.length
  let st' := { st with nodes := st.nodes ++ [emptyNode] }
  let st'' := modifyNode st' st.cur (fun nd => { nd with rules := addRule nd.rules st.selector idx })
  { st'' with stack := idx :: st''.stack, selector := "", mode := PMode.Top }

/-- Commit one finished assignment into the current scope. -/
def commitAssign (st : PState) (intoProps : Bool) (name : String) (acc : List Token) : PState :=
  match resolveValue acc with
  | none => { st with mode := PMode.Top }
  | some v =>
    let st' := modifyNode st st.cur
      (fun nd =>
        if intoProps then { nd with properties := upsert nd.properties name v }
        else { nd with vars := upsert nd.vars name v })
    { st' with mode := PMode.Top }

/-- Modelled from the spec: one step of the tolerant statement builder
(§4.2, §7) — selectors accumulate until `{`, assignments collect value
tokens until `;`, `@priority`/`@derive` take one argument, comments and
structurally unexpected tokens are skipped. -/
def stepTok (st : PState) (t : Token) : PState :=
  match st.mode with
  | PMode.Top =>
    match t with
    | Token.Text (TextType.Variable name) => { st with mode := PMode.AssignVar name [] }
    | Token.Text (TextType.PsuedoProperty name) => { st with mode := PMode.AssignProp name [] }
    | Token.ScopeOpen => pushScope st
    | Token.ScopeClose =>
      match st.stack with
      | _ :: rest2 :: rest => { st with stack := rest2 :: rest, selector := "" }
      | _ => { st with selector := "" }
    | Token.SectionClose => { st with selector := "" }
    | Token.PriorityDeclaration => { st with mode := PMode.PriorityArg }
    | Token.DeriveDeclaration => { st with mode := PMode.DeriveArg }
    | _ =>
      match selectorPart t with
      | some s => { st with selector := st.selector ++ s }
      | none => st
  | PMode.AssignVar name acc =>
    match t with
    | Token.Equals => if acc = [] then st else { st with mode := PMode.AssignVar name (acc ++ [t]) }
    | Token.SectionClose => commitAssign st false name acc
    | Token.ScopeClose => commitAssign st false name acc
    | _ => { st with mode := PMode.AssignVar name (acc ++ [t]) }
  | PMode.AssignProp name acc =>
    match t with
    | Token.Equals => if acc = [] then st else { st with mode := PMode.AssignProp name (acc ++ [t]) }
    | Token.SectionClose => commitAssign st true name acc
    | Token.ScopeClose => commitAssign st true name acc
    | _ => { st with mode := PMode.AssignProp name (acc ++ [t]) }
  | PMode.PriorityArg =>
    match t with
    | Token.DataType (DataType.Number q) =>
      let st' := modifyNode st st.cur (fun nd => { nd with priority := some ⌊q⌋ })
      { st' with mode := PMode.Top }
    | _ => { st with mode := PMode.Top }
  | PMode.DeriveArg =>
    match t with
    | Token.DataType (DataType.StringSingle s) =>
      let st' := modifyNode st st.cur (fun nd => { nd with derives := nd.derives ++ [s] })
      { st' with mode := PMode.Top }
    | _ => { st with mode := PMode.Top }

/-- Modelled from the spec: `parse_rsml` (§4.2, §6) — build the arena for a
whole document. The root node is created first, at index 0, before any
token is consumed. -/
def parse_rsml (ts : List Token) : Arena :=
  Arena.mk (ts.foldl stepTok
    { nodes := [emptyNode], stack := [0], selector := "", mode := PMode.Top }).nodes

/-! ## SHA-256 and `path_to_ref_string` (snapshot_middleware/rsml.rs 60-66)

`path_to_ref_string` hashes the seed with SHA-256 (the `sha2` crate),
reads the first 16 digest bytes as a big-endian `u128` and formats it as
`{:032x}` — 32 zero-padded lowercase hexadecimal digits. SHA-256 is
embedded below as the standard FIPS 180-4 algorithm over `Nat` words
reduced modulo `2^32`. -/

/-- Truncate to a 32-bit word. -/
def w32 (n : Nat) : Nat := n % 4294967296

/-- 32-bit right rotation. -/
def rotr32 (r x : Nat) : Nat := w32 (x <<< (32 - r) ||| x >>> r)

def shaBigSigma0 (x : Nat) : Nat := rotr32 2 x ^^^ rotr32 13 x ^^^ rotr32 22 x

def shaBigSigma1 (x : Nat) : Nat := rotr32 6 x ^^^ rotr32 11 x ^^^ rotr32 25 x

def shaSmallSigma0 (x : Nat) : Nat := rotr32 7 x ^^^ rotr32 18 x ^^^ x >>> 3

def shaSmallSigma1 (x : Nat) : Nat := rotr32 17 x ^^^ rotr32 19 x ^^^ x >>> 10

/-- The 64 SHA-256 round constants (FIPS 180-4 section 4.2.2), in decimal. -/
def shaK : List Nat :=
  [1116352408, 1899447441, 3049323471, 3921009573, 961987163,
   1508970993, 2453635748, 2870763221, 3624381080, 310598401,
   607225278, 1426881987, 1925078388, 2162078206, 2614888103,
   3248222580, 3835390401, 4022224774, 264347078, 604807628,
   770255983, 1249150122, 1555081692, 1996064986, 2554220882,
   2821834349, 2952996808, 3210313671, 3336571891, 3584528711,
   113926993, 338241895, 666307205, 773529912, 1294757372,
   1396182291, 1695183700, 1986661051, 2177026350, 2456956037,
   2730485921, 2820302411, 3259730800, 3345764771, 3516065817,
   3600352804, 4094571909, 275423344, 430227734, 506948616,
   659060556, 883997877, 958139571, 1322822218, 1537002063,
   1747873779, 1955562222, 2024104815, 2227730452, 2361852424,
   2428436474, 2756734187, 3204031479, 3329325298]

/-- The SHA-256 initial hash value (FIPS 180-4 section 5.3.3), in decimal. -/
def shaH0 : List Nat :=
  [1779033703, 3144134277, 1013904242, 2773480762,
   1359893119, 2600822924, 528734635, 1541459225]

/-- Big-endian byte expansion of `n` into `k` bytes. -/
def beBytes (k n : Nat) : List Nat :=
  (List.range k).map (fun i => n / 256 ^ (k - 1 - i) % 256)

/-- SHA-256 message padding: `0x80`, zeros to 56 mod 64, then the bit
length as a 64-bit big-endian integer. -/
def padMsg (m : List Nat) : List Nat :=
  m ++ [128] ++ List.replicate ((119 - m.length % 64) % 64) 0 ++ beBytes 8 (8 * m.length)

/-- Split the padded message into 64-byte blocks (fuel-bounded; the fuel is
ample because every step removes 64 bytes). -/
def toChunksAux : Nat → List Nat → List (List Nat)
  | 0, _ => []
  | fuel + 1, l =>
    if l.isEmpty then [] else l.take 64 :: toChunksAux fuel (l.drop 64)

def toChunks (l : List Nat) : List (List Nat) :=
  toChunksAux l.length l

/-- The first 16 words of the message schedule, in Horner form over the
block's bytes. -/
def words16 (chunk : List Nat) : List Nat :=
  (List.range 16).map
    (fun i =>
      ((chunk.getD (4 * i) 0 * 256 + chunk.getD (4 * i + 1) 0) * 256 +
        chunk.getD (4 * i + 2) 0) * 256 + chunk.getD (4 * i + 3) 0)

/-- Extend the schedule to 64 words. -/
def extendWords (ws : List Nat) : List Nat :=
  (List.range 48).foldl
    (fun acc _ =>
      acc ++ [w32 (acc.getD (acc.length - 16) 0 + shaSmallSigma0 (acc.getD (acc.length - 15) 0) +
        acc.getD (acc.length - 7) 0 + shaSmallSigma1 (acc.getD (acc.length - 2) 0))])
    ws

/-- One SHA-256 compression round over the 8-word working state.  `Ch` and
`Maj` are written in their two-xor forms `g ^^^ (e &&& (f ^^^ g))` and
`(a &&& (b ^^^ c)) ^^^ (b &&& c)`, bitwise-equal to the FIPS definitions. -/
def shaRound (w : List Nat) (st : List Nat) (i : Nat) : List Nat :=
  match st with
  | [s0, s1, s2, s3, s4, s5, s6, s7] =>
    let choose := s6 ^^^ (s4 &&& (s5 ^^^ s6))
    let major := (s0 &&& (s1 ^^^ s2)) ^^^ (s1 &&& s2)
    let u := w32 (s7 + shaBigSigma1 s4 + choose + shaK.getD i 0 + w.getD i 0)
    let v := w32 (shaBigSigma0 s0 + major)
    [w32 (u + v), s0, s1, s2, w32 (s3 + u), s4, s5, s6]
  | _ => st

/-- Compress one 64-byte block into the running hash. -/
def shaCompress (h : List Nat) (chunk : List Nat) : List Nat :=
  let w := extendWords (words16 chunk)
  let fin := (List.range 64).foldl (shaRound w) h
  List.zipWith (fun x y => w32 (x + y)) h fin

/-- SHA-256 digest of a string's UTF-8 bytes, as 32 bytes. -/
def sha256Bytes (s : String) : List Nat :=
  let msg := s.toUTF8.toList.map (fun b => b.toNat)
  let hFin := (toChunks (padMsg msg)).foldl shaCompress shaH0
  hFin.foldr (fun wd acc => beBytes 4 wd ++ acc) []

/-- `u128::from_be_bytes` over the first 16 digest bytes
(`hash[..16].try_into()`). -/
def u128OfBytes (bytes : List Nat) : Nat :=
  (bytes.take 16).foldl (fun a b => a * 256 + b % 256) 0

/-- Lowercase hexadecimal digit. -/
def hexChar (n : Nat) : Char :=
  if n < 10 then Char.ofNat (48 + n) else Char.ofNat (87 + n)

/-- `format!("{:032x}", v)` for `v : u128`: since `v < 2^128 = 16^32`, the
minimal hex form has at most 32 digits and zero-padding makes it exactly
the 32 digits of `v` in base 16, most significant first. -/
def hex32 (v : Nat) : String :=
  String.mk ((List.range 32).map (fun i => hexChar (v / 16 ^ (31 - i) % 16)))

/-- `path_to_ref_string` from snapshot_middleware/rsml.rs lines 60-66. -/
def path_to_ref_string (seed : String) : String :=
  hex32 (u128OfBytes (sha256Bytes seed))

/-- The characters `{:032x}` can produce. -/
def isLowerHexChar (c : Char) : Bool :=
  c.isDigit || (decide (97 ≤ c.val) && decide (c.val ≤ 102))

/-- The five whitespace characters named by the specification (§4.1): the
four of the skip class plus the tab. -/
def isWsOrTab (c : Char) : Bool :=
  isSkipWs c || c == '\t'

/-! # Lemmas and theorems -/

/-! ## Scanner infrastructure -/

theorem runLen_le (p : Char → Bool) : ∀ cs : List Char, runLen p cs ≤ cs.length := by
  intro cs
  induction cs with
  | nil => simp [runLen]
  | cons c rest ih =>
    simp only [runLen, List.length_cons]
    split
    · omega
    · omega

theorem runLen_append_of_all (p : Char → Bool) (w rest : List Char)
    (h : ∀ c ∈ w, p c = true) : runLen p (w ++ rest) = w.length + runLen p rest := by
  induction w with
  | nil => simp
  | cons c w' ih =>
    have hc : p c = true := h c (by simp)
    simp only [List.cons_append, runLen, hc, if_true, List.length_cons]
    rw [show w'.append rest = w' ++ rest from rfl, ih (fun d hd => h d (by simp [hd]))]
    omega

theorem runLen_of_all (p : Char → Bool) (w : List Char) (h : ∀ c ∈ w, p c = true) :
    runLen p w = w.length := by
  have := runLen_append_of_all p w [] h
  simpa using this

theorem runLen_cons_neg (p : Char → Bool) (c : Char) (cs : List Char) (h : p c = false) :
    runLen p (c :: cs) = 0 := by
  simp [runLen, h]

theorem pickBest_nil : pickBest [] = none := rfl

theorem pickBest_single (a : Nat × Nat × Option Token) : pickBest [a] = some a := rfl

theorem pickBest_pair (a b : Nat × Nat × Option Token) :
    pickBest [a, b] = some (if better b a then b else a) := by
  simp only [pickBest, List.foldl]
  split <;> rfl

theorem lexAux_nil (f : Nat) : lexAux f [] = [] := by
  cases f <;> rfl

/-- Reusable step: when the winning candidate at the head of the input
covers the whole input and produces a token, the scan yields exactly that
token. -/
theorem lexAux_of_pickBest (c : Char) (rest : List Char) (p : Nat) (t : Token)
    (hpb : pickBest (candidates (c :: rest)) = some (rest.length + 1, p, some t)) :
    lexAux (rest.length + 1) (c :: rest) = [t] := by
  simp only [lexAux, hpb]
  have hmax : max (rest.length + 1) 1 = rest.length + 1 := by omega
  rw [hmax]
  have hdrop : (c :: rest).drop (rest.length + 1) = [] := by
    apply List.drop_eq_nil_of_le
    simp
  rw [hdrop, lexAux_nil]

theorem lex_rsml_def (s : String) : lex_rsml s = lexAux s.data.length s.data := rfl

/-! ## C2: totality and graceful degradation -/

theorem lexAux_length_le : ∀ (f : Nat) (cs : List Char), (lexAux f cs).length ≤ cs.length := by
  intro f
  induction f with
  | zero => intro cs; simp [lexAux]
  | succ f ih =>
    intro cs
    cases cs with
    | nil => simp [lexAux]
    | cons c rest =>
      simp only [lexAux]
      cases hpb : pickBest (candidates (c :: rest)) with
      | none =>
        have := ih rest
        simp only [List.length_cons]
        omega
      | some v =>
        obtain ⟨n, p, t⟩ := v
        have hdl : ((c :: rest).drop (max n 1)).length = rest.length + 1 - max n 1 := by
          simp [List.length_drop]
        have hi := ih ((c :: rest).drop (max n 1))
        cases t with
        | none =>
          simp only [List.length_cons]
          omega
        | some tok =>
          simp only [List.length_cons, List.length_cons]
          have hm : 1 ≤ max n 1 := by omega
          omega

/-- C2 — `lex_rsml` is total: every source string yields a finite token
sequence (never longer than the input), and spans matched by no rule
contribute no token (`~` matches no rule; it is skipped and the
surrounding tokens survive). -/
theorem c2_lex_total :
    (∀ s : String, (lex_rsml s).length ≤ s.data.length)
      ∧ lex_rsml "~" = []
      ∧ lex_rsml "a ~ b" =
          [Token.Text (TextType.NonSpecial "a"), Token.Text (TextType.NonSpecial "b")] := by
  refine ⟨fun s => lexAux_length_le s.data.length s.data, by decide, by decide⟩

/-! ## C7: lexing is pure and deterministic -/

/-- C7 — lexing is deterministic: the token sequence is a function of the
source string alone; equal sources give equal token sequences. In the
embedding `lex_rsml` is a pure function of its argument, mirroring the
Rust function, which owns all its state. -/
theorem c7_lex_deterministic : ∀ s t : String, s = t → lex_rsml s = lex_rsml t :=
  fun _ _ h => congrArg lex_rsml h

theorem c7_witness : lex_rsml "a { b: 1px }" = lex_rsml "a { b: 1px }" :=
  c7_lex_deterministic "a { b: 1px }" "a { b: 1px }" rfl

/-! ## Whitespace handling -/

theorem candidates_skip (c : Char) (hc : isSkipWs c = true) (rest : List Char) :
    candidates (c :: rest) = [(runLen isSkipWs rest + 1, 2, none)] := by
  have hcs : c = '\n' ∨ c = '\x0c' ∨ c = '\r' ∨ c = ' ' := by
    have := hc
    simp [isSkipWs] at this
    tauto
  rcases hcs with h | h | h | h <;> subst h <;>
    simp +decide [candidates, cand, mSkip, mPref, mSigil, mCommentSingle, mColorTw,
      mColorCss, mColorBc, mColorHex, mString, mNumSuffix, numCoreLen, numCoreLenNoSign,
      mAsset, digRun, runLen, startsWith]

theorem candidates_tab (rest : List Char) : candidates ('\t' :: rest) = [] := by
  simp +decide [candidates, cand, mSkip, mPref, mSigil, mCommentSingle, mColorTw,
    mColorCss, mColorBc, mColorHex, mString, mNumSuffix, numCoreLen, numCoreLenNoSign,
    mAsset, digRun, runLen, startsWith]

theorem lexAux_ws : ∀ (f : Nat) (cs : List Char), cs.length ≤ f →
    (∀ c ∈ cs, isWsOrTab c = true) → lexAux f cs = [] := by
  intro f
  induction f with
  | zero =>
    intro cs hlen _
    interval_cases h : cs.length
    · simp [List.length_eq_zero] at h
      simp [h, lexAux_nil]
  | succ f ih =>
    intro cs hlen hws
    cases cs with
    | nil => exact lexAux_nil _
    | cons c rest =>
      have hc : isWsOrTab c = true := hws c (by simp)
      by_cases hsk : isSkipWs c = true
      · simp only [lexAux, candidates_skip c hsk rest, pickBest_single]
        have hdrop : ((c :: rest).drop (max (runLen isSkipWs rest + 1) 1)).length ≤
            rest.length := by
          simp [List.length_drop]
        apply ih
        · simp only [List.length_cons] at hlen
          have := hdrop
          omega
        · intro d hd
          exact hws d (List.drop_subset _ _ hd)
      · have htab : c = '\t' := by
          simp [isWsOrTab, hsk] at hc
          simpa using hc
        subst htab
        simp only [lexAux, candidates_tab, pickBest_nil]
        apply ih
        · simp only [List.length_cons] at hlen
          omega
        · intro d hd
          exact hws d (by simp [hd])

/-! ## C1: whitespace-only sources and comment tokens -/

/-- C1 counterexample — a source consisting solely of a comment does not
lex to the empty sequence: the comment is emitted as a `CommentSingle`
token (`lex_rsml` filters out only `Err` results, and the comment rules
are ordinary `Ok` variants of `Token`). -/
theorem c1_counterexample :
    lex_rsml "-- a" = [Token.CommentSingle] ∧ lex_rsml "-- a" ≠ [] := by
  refine ⟨by decide, by decide⟩

/-- C1 amended — for sources consisting solely of whitespace, `lex_rsml`
returns the empty sequence; but comments are not discarded by the lexer:
a single-line comment lexes to a `CommentSingle` token and the multi-line
delimiters lex to `CommentMultiStart`/`CommentMultiEnd` (the bracketed
interior is lexed as ordinary tokens). Discarding comment tokens is left
to the consumer of the token stream. -/
theorem c1_amended :
    (∀ s : String, (∀ c ∈ s.data, isWsOrTab c = true) → lex_rsml s = [])
      ∧ lex_rsml "-- a" = [Token.CommentSingle]
      ∧ lex_rsml "--[[ a ]]" =
          [Token.CommentMultiStart, Token.Text (TextType.NonSpecial "a"),
            Token.CommentMultiEnd] := by
  refine ⟨fun s h => lexAux_ws s.data.length s.data le_rfl h, by decide, by decide⟩

theorem c1_witness : lex_rsml " \t\n\r" = [] :=
  c1_amended.1 " \t\n\r" (by decide)

/-! ## C6: whitespace between tokens -/

/-- C6 counterexample — replacing one whitespace character between two
tokens by another can change the emitted token sequence: after a
single-line comment, a newline terminates the comment but a space is
absorbed into it, so the following identifier token disappears. -/
theorem c6_counterexample :
    lex_rsml "-- c\nb" = [Token.CommentSingle, Token.Text (TextType.NonSpecial "b")]
      ∧ lex_rsml "-- c b" = [Token.CommentSingle] := by
  refine ⟨by decide, by decide⟩

/-- C6 amended — space, newline, carriage return and form feed between
tokens are skipped by the whitespace rule; a tab is not in the skip class
but matches no rule, so it is dropped and likewise never emitted. A lone
whitespace character lexes to nothing, and between two identifier tokens
any of the five whitespace characters is interchangeable. The
interchangeability is not universal, however: directly after a single-line
comment, a space or tab is absorbed into the comment token while a
newline, carriage return or form feed terminates it. -/
theorem c6_amended : ∀ w : Char,
    w = ' ' ∨ w = '\t' ∨ w = '\n' ∨ w = '\r' ∨ w = '\x0c' →
    lex_rsml (String.mk ['a', w, 'b']) =
        [Token.Text (TextType.NonSpecial "a"), Token.Text (TextType.NonSpecial "b")]
      ∧ lex_rsml (String.mk [w]) = []
      ∧ lex_rsml (String.mk ['-', '-', ' ', 'c', w, 'b']) =
          (if w = '\n' ∨ w = '\r' ∨ w = '\x0c' then
            [Token.CommentSingle, Token.Text (TextType.NonSpecial "b")]
          else [Token.CommentSingle]) := by
  intro w h
  rcases h with h | h | h | h | h <;> subst h <;> refine ⟨by decide, by decide, by decide⟩

theorem c6_witness :
    lex_rsml (String.mk ['a', '\t', 'b']) =
      [Token.Text (TextType.NonSpecial "a"), Token.Text (TextType.NonSpecial "b")] :=
  (c6_amended '\t' (by decide)).1

/-! ## C9: sign absorption into numeric literals -/

/-- C9 counterexample — `3-2` does not lex to two numbers: the identifier
class `[a-zA-Z0-9"'_-]` contains both digits and `-`, so the `Text` rule
matches the whole of `3-2` and wins on length over the one-digit `Number`
match. -/
theorem c9_counterexample :
    lex_rsml "3-2" = [Token.Text (TextType.NonSpecial "3-2")]
      ∧ lex_rsml "3-2" ≠
          [Token.DataType (DataType.Number 3), Token.DataType (DataType.Number (-2))] := by
  constructor
  · decide
  · intro h
    have h' : lex_rsml "3-2" = [Token.Text (TextType.NonSpecial "3-2")] := by decide
    rw [h'] at h
    simp at h

/-- C9 amended — a `+` or `-` immediately followed by a digit is absorbed
into the numeric literal as its sign when no longer identifier match
exists: `-2` standing alone lexes to `Number (-2)` (the `Number` rule's
priority beats the equally long identifier match) and `3 -2` lexes to two
numbers with no `Operator Sub`. But adjacent identifier-class characters
make the identifier rule's longer match win: `3-2` is one `NonSpecial`
text token. A `-` followed by a non-digit yields `Operator Sub` only when
the next character is outside the identifier class (`- 2` does, `-a`
lexes as the single text token `-a`). -/
theorem c9_amended :
    lex_rsml "-2" = [Token.DataType (DataType.Number (f64OrZero ['-', '2']))]
      ∧ lex_rsml "3 -2" =
          [Token.DataType (DataType.Number (f64OrZero ['3'])),
            Token.DataType (DataType.Number (f64OrZero ['-', '2']))]
      ∧ f64OrZero ['-', '2'] = -2 ∧ f64OrZero ['3'] = 3
      ∧ lex_rsml "3-2" = [Token.Text (TextType.NonSpecial "3-2")]
      ∧ lex_rsml "- 2" =
          [Token.Operator Operator.Sub, Token.DataType (DataType.Number (f64OrZero ['2']))]
      ∧ lex_rsml "-a" = [Token.Text (TextType.NonSpecial "-a")] := by
  refine ⟨by rfl, by rfl, ?_, ?_, by decide, by rfl, by decide⟩
  · simp +decide [f64OrZero, parseF64Opt, startsWith, digRun, runLen, digitsVal]
  · simp +decide [f64OrZero, parseF64Opt, startsWith, digRun, runLen, digitsVal]

/-! ## C10: `path_to_ref_string` -/

theorem hexChar_lower (n : Nat) (h : n < 16) : isLowerHexChar (hexChar n) = true := by
  interval_cases n <;> decide

/-- `u128::from_be_bytes` of 16 bytes is below `2^128`, so the `{:032x}`
format never needs more than 32 digits and `hex32` renders it exactly. -/
theorem u128OfBytes_lt (bytes : List Nat) : u128OfBytes bytes < 2 ^ 128 := by
  have aux : ∀ (l : List Nat) (a B : Nat), a < B →
      l.foldl (fun x b => x * 256 + b % 256) a < B * 256 ^ l.length := by
    intro l
    induction l with
    | nil => intro a B h; simpa using h
    | cons c l ih =>
      intro a B h
      have h1 : a * 256 + c % 256 < B * 256 := by
        have hm : c % 256 < 256 := Nat.mod_lt _ (by norm_num)
        have : a + 1 ≤ B := h
        nlinarith
      have := ih (a * 256 + c % 256) (B * 256) h1
      simpa [List.length_cons, pow_succ, mul_assoc, mul_comm, mul_left_comm] using this
  have h16 : (bytes.take 16).length ≤ 16 := by simp
  have := aux (bytes.take 16) 0 1 (by norm_num)
  calc u128OfBytes bytes < 1 * 256 ^ (bytes.take 16).length := this
    _ ≤ 256 ^ 16 := by
        simpa using Nat.pow_le_pow_right (by norm_num : 1 ≤ 256) h16
    _ = 2 ^ 128 := by norm_num

/-- C10 — `path_to_ref_string` is deterministic (equal seeds give equal
reference strings) and always renders the 128-bit truncated digest as
exactly 32 lowercase hexadecimal characters, so derive-reference
identifiers are stable across invocations. -/
theorem c10_ref_string : ∀ s : String,
    (path_to_ref_string s).length = 32
      ∧ (∀ c ∈ (path_to_ref_string s).data, isLowerHexChar c = true)
      ∧ u128OfBytes (sha256Bytes s) < 2 ^ 128
      ∧ ∀ t : String, t = s → path_to_ref_string t = path_to_ref_string s := by
  intro s
  refine ⟨?_, ?_, u128OfBytes_lt _, fun t ht => congrArg path_to_ref_string ht⟩
  · simp [path_to_ref_string, hex32, String.length]
  · intro c hcmem
    simp only [path_to_ref_string, hex32, String.mk, List.mem_map, List.mem_range] at hcmem
    obtain ⟨i, _, hc⟩ := hcmem
    rw [← hc]
    exact hexChar_lower _ (Nat.mod_lt _ (by norm_num))

theorem c10_witness :
    path_to_ref_string "/foo.rsml" = path_to_ref_string "/foo.rsml"
      ∧ (path_to_ref_string "/foo.rsml").length = 32 :=
  ⟨(c10_ref_string "/foo.rsml").2.2.2 "/foo.rsml" rfl, (c10_ref_string "/foo.rsml").1⟩

/-! ## C4: `parse_rsml` always yields a rooted arena -/

theorem modifyNode_nodes_length (st : PState) (i : Nat) (f : TokenTreeNode → TokenTreeNode) :
    (modifyNode st i f).nodes.length = st.nodes.length := by
  unfold modifyNode
  cases h : st.nodes.get? i <;> simp

theorem pushScope_nodes_length (st : PState) :
    (pushScope st).nodes.length = st.nodes.length + 1 := by
  unfold pushScope
  simp [modifyNode_nodes_length]

theorem commitAssign_nodes_length (st : PState) (b : Bool) (name : String) (acc : List Token) :
    (commitAssign st b name acc).nodes.length = st.nodes.length := by
  unfold commitAssign
  cases resolveValue acc <;> simp [modifyNode_nodes_length]

theorem stepTok_nodes_length (st : PState) (t : Token) :
    st.nodes.length ≤ (stepTok st t).nodes.length := by
  unfold stepTok
  cases st.mode <;> cases t <;> (repeat' split) <;>
    simp [pushScope_nodes_length, commitAssign_nodes_length, modifyNode_nodes_length]

theorem parse_foldl_nodes_length (ts : List Token) : ∀ st : PState,
    st.nodes.length ≤ (ts.foldl stepTok st).nodes.length := by
  induction ts with
  | nil => intro st; simp
  | cons t rest ih =>
    intro st
    exact le_trans (stepTok_nodes_length st t) (ih (stepTok st t))

/-- C4 — for every token sequence, including the empty and malformed ones,
`parse_rsml` returns an arena with at least one node, and the document
root sits at index 0, so looking index 0 up always succeeds. -/
theorem c4_parse_root : ∀ ts : List Token,
    1 ≤ (parse_rsml ts).nodes.length ∧ ((parse_rsml ts).get 0).isSome = true := by
  intro ts
  have h : 1 ≤ (parse_rsml ts).nodes.length := by
    have := parse_foldl_nodes_length ts
      { nodes := [emptyNode], stack := [0], selector := "", mode := PMode.Top }
    simpa [parse_rsml] using this
  refine ⟨h, ?_⟩
  unfold Arena.get
  cases hg : (parse_rsml ts).nodes.get? 0 with
  | none =>
    have := List.get?_eq_none.mp hg
    omega
  | some _ => rfl

/-! ## C8: hex-digit lexemes after `#` -/

theorem isTextChar_of_hex (c : Char) (h : isHexDigit c = true) : isTextChar c = true := by
  simp only [isHexDigit, Bool.or_eq_true, Bool.and_eq_true, decide_eq_true_eq] at h
  cases h with
  | inl h1 =>
    cases h1 with
    | inl h2 => simp [isTextChar, h2]
    | inr h2 =>
      have hl : c.isLower = true := by
        simp only [Char.isLower, Bool.and_eq_true, decide_eq_true_eq]
        exact ⟨h2.1, UInt32.le_trans h2.2 (by decide)⟩
      simp [isTextChar, Char.isAlpha, hl]
  | inr h1 =>
    have hu : c.isUpper = true := by
      simp only [Char.isUpper, Bool.and_eq_true, decide_eq_true_eq]
      exact ⟨h1.1, UInt32.le_trans h1.2 (by decide)⟩
    simp [isTextChar, Char.isAlpha, hu]

/-- C8 — a lexeme of `#` followed by one or more hex digits lexes as a
single `ColorHex` data token carrying the whole lexeme including the `#`:
the `ColorHex` rule matches the same span as the `SelectorName` rule and
outranks its priority 1, so such a selector name cannot be expressed. -/
theorem c8_hex_selector : ∀ w : String, w ≠ "" → (∀ c ∈ w.data, isHexDigit c = true) →
    lex_rsml ("#" ++ w) = [Token.DataType (DataType.ColorHex ("#" ++ w))] := by
  intro w hne hhex
  obtain ⟨wd⟩ := w
  have hwd : wd ≠ [] := by
    intro h
    exact hne (by simp [h])
  have hlen0 : wd.length ≠ 0 := by
    simpa [List.length_eq_zero] using hwd
  have hrh : runLen isHexDigit wd = wd.length :=
    runLen_of_all _ _ (by intro c hc; exact hhex c hc)
  have hrt : runLen isTextChar wd = wd.length :=
    runLen_of_all _ _ (fun c hc => isTextChar_of_hex c (hhex c hc))
  have hd : ("#" ++ String.mk wd) = String.mk ('#' :: wd) := rfl
  rw [hd, lex_rsml_def]
  have hfuel : (String.mk ('#' :: wd)).data.length = wd.length + 1 := by simp
  have hdata : (String.mk ('#' :: wd)).data = '#' :: wd := rfl
  rw [hfuel, hdata]
  apply lexAux_of_pickBest _ _ 4
  have htake : List.take (1 + wd.length) ('#' :: wd) = '#' :: wd := by
    rw [Nat.add_comm, List.take_succ_cons, List.take_length]
  have hcands : candidates ('#' :: wd) =
      [(1 + wd.length, 1, some (Token.Text (TextType.SelectorName (String.mk wd)))),
       (1 + wd.length, 4, some (Token.DataType (DataType.ColorHex (String.mk ('#' :: wd)))))] := by
    simp +decide [candidates, cand, mSkip, mPref, mSigil, mCommentSingle, mColorTw,
      mColorCss, mColorBc, mColorHex, mString, mNumSuffix, numCoreLen, numCoreLenNoSign,
      mAsset, digRun, runLen, startsWith, hrt, hrh, hlen0, str_clip, htake]
  rw [hcands, pickBest_pair]
  have hb : better
      (1 + wd.length, 4, some (Token.DataType (DataType.ColorHex (String.mk ('#' :: wd)))))
      (1 + wd.length, 1, some (Token.Text (TextType.SelectorName (String.mk wd)))) = true := by
    simp [better]
  rw [hb]
  simp [Nat.add_comm]

theorem c8_witness :
    ("#abc" : String) ≠ "" ∧ lex_rsml "#abc" = [Token.DataType (DataType.ColorHex "#abc")] :=
  ⟨by decide, c8_hex_selector "abc" (by decide) (by decide)⟩

/-! ## C5: sigil stripping -/

theorem beq_false_of_textChar (a c : Char) (ha : isTextChar a = false)
    (hc : isTextChar c = true) : (a == c) = false := by
  cases h : a == c
  · rfl
  · rw [beq_iff_eq] at h
    rw [h, hc] at ha
    exact absurd ha (by simp)

theorem runLen_lt_of_not_all (p : Char → Bool) (w : List Char)
    (h : ¬ ∀ c ∈ w, p c = true) : runLen p w < w.length := by
  induction w with
  | nil => exact absurd (by simp) h
  | cons c rest ih =>
    by_cases hc : p c = true
    · have hrest : ¬ ∀ d ∈ rest, p d = true := by
        intro hall
        exact h (by
          intro d hd
          rcases List.mem_cons.mp hd with h1 | h1
          · rw [h1]; exact hc
          · exact hall d h1)
      simp only [runLen, hc, if_true, List.length_cons]
      have := ih hrest
      omega
    · simp only [runLen, Bool.not_eq_true] at hc
      simp [runLen_cons_neg p c rest hc]

theorem lex_state_ident (w0 : Char) (wd' : List Char)
    (hAll : ∀ c ∈ w0 :: wd', isTextChar c = true) :
    lex_rsml (":" ++ String.mk (w0 :: wd')) =
      [Token.Text (TextType.SelectorStateOrEnumPart (String.mk (w0 :: wd')))] := by
  have hw0 : isTextChar w0 = true := hAll w0 (by simp)
  have hrt : runLen isTextChar wd' = wd'.length :=
    runLen_of_all _ _ (fun c hc => hAll c (by simp [hc]))
  have hneq : ¬ (':' = w0) := by
    intro h
    rw [← h] at hw0
    exact absurd hw0 (by decide)
  have htk : List.take (1 + (wd'.length + 1)) (':' :: w0 :: wd') = ':' :: w0 :: wd' :=
    List.take_of_length_le (by simp <;> omega)
  have hclip : str_clip (':' :: w0 :: wd') 1 0 = w0 :: wd' := by
    simp [str_clip]
  rw [show (":" ++ String.mk (w0 :: wd')) = String.mk (':' :: w0 :: wd') from rfl, lex_rsml_def]
  rw [show (String.mk (':' :: w0 :: wd')).data.length = (w0 :: wd').length + 1 from by simp,
    show (String.mk (':' :: w0 :: wd')).data = ':' :: w0 :: wd' from rfl]
  apply lexAux_of_pickBest _ _ 1
  have hcands : candidates (':' :: w0 :: wd') =
      [(1 + (wd'.length + 1), 1,
          some (Token.Text (TextType.SelectorStateOrEnumPart (String.mk (w0 :: wd'))))),
       (1, 2, some Token.Colon)] := by
    simp +decide [candidates, cand, mSkip, mPref, mSigil, mCommentSingle, mColorTw,
      mColorCss, mColorBc, mColorHex, mString, mNumSuffix, numCoreLen, numCoreLenNoSign,
      mAsset, digRun, runLen, startsWith, hrt, hw0, hneq, htk, hclip]
  rw [hcands, pickBest_pair]
  have hb : better (1, 2, some Token.Colon)
      (1 + (wd'.length + 1), 1,
        some (Token.Text (TextType.SelectorStateOrEnumPart (String.mk (w0 :: wd'))))) = false := by
    have h1 : ¬ (1 + (wd'.length + 1) < 1) := by omega
    have h2 : ¬ (1 + (wd'.length + 1) = 1) := by omega
    simp [better, h1, h2]
  rw [hb]
  simp [Nat.add_comm]

theorem lex_psuedo_ident (w0 : Char) (wd' : List Char)
    (hAll : ∀ c ∈ w0 :: wd', isTextChar c = true) :
    lex_rsml ("::" ++ String.mk (w0 :: wd')) =
      [Token.Text (TextType.SelectorPsuedo (String.mk (w0 :: wd')))] := by
  have hw0 : isTextChar w0 = true := hAll w0 (by simp)
  have hrt : runLen isTextChar wd' = wd'.length :=
    runLen_of_all _ _ (fun c hc => hAll c (by simp [hc]))
  have htk : List.take (2 + (wd'.length + 1)) (':' :: ':' :: w0 :: wd') = ':' :: ':' :: w0 :: wd' :=
    List.take_of_length_le (by simp <;> omega)
  have hclip : str_clip (':' :: ':' :: w0 :: wd') 2 0 = w0 :: wd' := by
    simp [str_clip]
  rw [show ("::" ++ String.mk (w0 :: wd')) = String.mk (':' :: ':' :: w0 :: wd') from rfl,
    lex_rsml_def]
  rw [show (String.mk (':' :: ':' :: w0 :: wd')).data.length = (':' :: w0 :: wd').length + 1
      from by simp,
    show (String.mk (':' :: ':' :: w0 :: wd')).data = ':' :: ':' :: w0 :: wd' from rfl]
  apply lexAux_of_pickBest _ _ 1
  have hcands : candidates (':' :: ':' :: w0 :: wd') =
      [(2 + (wd'.length + 1), 1,
          some (Token.Text (TextType.SelectorPsuedo (String.mk (w0 :: wd'))))),
       (1, 2, some Token.Colon)] := by
    simp +decide [candidates, cand, mSkip, mPref, mSigil, mCommentSingle, mColorTw,
      mColorCss, mColorBc, mColorHex, mString, mNumSuffix, numCoreLen, numCoreLenNoSign,
      mAsset, digRun, runLen, startsWith, hrt, hw0, htk, hclip]
  rw [hcands, pickBest_pair]
  have hb : better (1, 2, some Token.Colon)
      (2 + (wd'.length + 1), 1,
        some (Token.Text (TextType.SelectorPsuedo (String.mk (w0 :: wd'))))) = false := by
    have h1 : ¬ (2 + (wd'.length + 1) < 1) := by omega
    have h2 : ¬ (2 + (wd'.length + 1) = 1) := by omega
    simp [better, h1, h2]
  rw [hb]
  simp
  omega

theorem lex_variable_ident (w0 : Char) (wd' : List Char)
    (hAll : ∀ c ∈ w0 :: wd', isTextChar c = true) :
    lex_rsml ("$" ++ String.mk (w0 :: wd')) =
      [Token.Text (TextType.Variable (String.mk (w0 :: wd')))] := by
  have hw0 : isTextChar w0 = true := hAll w0 (by simp)
  have hrt : runLen isTextChar wd' = wd'.length :=
    runLen_of_all _ _ (fun c hc => hAll c (by simp [hc]))
  have hneq : ¬ ('!' = w0) := by
    intro h
    rw [← h] at hw0
    exact absurd hw0 (by decide)
  have htk : List.take (1 + (wd'.length + 1)) ('$' :: w0 :: wd') = '$' :: w0 :: wd' :=
    List.take_of_length_le (by simp <;> omega)
  have hclip : str_clip ('$' :: w0 :: wd') 1 0 = w0 :: wd' := by
    simp [str_clip]
  rw [show ("$" ++ String.mk (w0 :: wd')) = String.mk ('$' :: w0 :: wd') from rfl, lex_rsml_def]
  rw [show (String.mk ('$' :: w0 :: wd')).data.length = (w0 :: wd').length + 1 from by simp,
    show (String.mk ('$' :: w0 :: wd')).data = '$' :: w0 :: wd' from rfl]
  apply lexAux_of_pickBest _ _ 1
  have hcands : candidates ('$' :: w0 :: wd') =
      [(1 + (wd'.length + 1), 1,
          some (Token.Text (TextType.Variable (String.mk (w0 :: wd')))))] := by
    simp +decide [candidates, cand, mSkip, mPref, mSigil, mCommentSingle, mColorTw,
      mColorCss, mColorBc, mColorHex, mString, mNumSuffix, numCoreLen, numCoreLenNoSign,
      mAsset, digRun, runLen, startsWith, hrt, hw0, hneq, htk, hclip]
  rw [hcands, pickBest_single]
  simp [Nat.add_comm]

theorem lex_argument_ident (w0 : Char) (wd' : List Char)
    (hAll : ∀ c ∈ w0 :: wd', isTextChar c = true) :
    lex_rsml ("$!" ++ String.mk (w0 :: wd')) =
      [Token.Text (TextType.Argument (String.mk (w0 :: wd')))] := by
  have hw0 : isTextChar w0 = true := hAll w0 (by simp)
  have hrt : runLen isTextChar wd' = wd'.length :=
    runLen_of_all _ _ (fun c hc => hAll c (by simp [hc]))
  have htk : List.take (2 + (wd'.length + 1)) ('$' :: '!' :: w0 :: wd') = '$' :: '!' :: w0 :: wd' :=
    List.take_of_length_le (by simp <;> omega)
  have hclip : str_clip ('$' :: '!' :: w0 :: wd') 2 0 = w0 :: wd' := by
    simp [str_clip]
  rw [show ("$!" ++ String.mk (w0 :: wd')) = String.mk ('$' :: '!' :: w0 :: wd') from rfl,
    lex_rsml_def]
  rw [show (String.mk ('$' :: '!' :: w0 :: wd')).data.length = ('!' :: w0 :: wd').length + 1
      from by simp,
    show (String.mk ('$' :: '!' :: w0 :: wd')).data = '$' :: '!' :: w0 :: wd' from rfl]
  apply lexAux_of_pickBest _ _ 1
  have hcands : candidates ('$' :: '!' :: w0 :: wd') =
      [(2 + (wd'.length + 1), 1,
          some (Token.Text (TextType.Argument (String.mk (w0 :: wd')))))] := by
    simp +decide [candidates, cand, mSkip, mPref, mSigil, mCommentSingle, mColorTw,
      mColorCss, mColorBc, mColorHex, mString, mNumSuffix, numCoreLen, numCoreLenNoSign,
      mAsset, digRun, runLen, startsWith, hrt, hw0, htk, hclip]
  rw [hcands, pickBest_single]
  simp
  omega

theorem lex_psuedoprop_ident (w0 : Char) (wd' : List Char)
    (hAll : ∀ c ∈ w0 :: wd', isTextChar c = true) :
    lex_rsml ("!" ++ String.mk (w0 :: wd')) =
      [Token.Text (TextType.PsuedoProperty (String.mk (w0 :: wd')))] := by
  have hw0 : isTextChar w0 = true := hAll w0 (by simp)
  have hrt : runLen isTextChar wd' = wd'.length :=
    runLen_of_all _ _ (fun c hc => hAll c (by simp [hc]))
  have htk : List.take (1 + (wd'.length + 1)) ('!' :: w0 :: wd') = '!' :: w0 :: wd' :=
    List.take_of_length_le (by simp <;> omega)
  have hclip : str_clip ('!' :: w0 :: wd') 1 0 = w0 :: wd' := by
    simp [str_clip]
  rw [show ("!" ++ String.mk (w0 :: wd')) = String.mk ('!' :: w0 :: wd') from rfl, lex_rsml_def]
  rw [show (String.mk ('!' :: w0 :: wd')).data.length = (w0 :: wd').length + 1 from by simp,
    show (String.mk ('!' :: w0 :: wd')).data = '!' :: w0 :: wd' from rfl]
  apply lexAux_of_pickBest _ _ 1
  have hcands : candidates ('!' :: w0 :: wd') =
      [(1 + (wd'.length + 1), 1,
          some (Token.Text (TextType.PsuedoProperty (String.mk (w0 :: wd')))))] := by
    simp +decide [candidates, cand, mSkip, mPref, mSigil, mCommentSingle, mColorTw,
      mColorCss, mColorBc, mColorHex, mString, mNumSuffix, numCoreLen, numCoreLenNoSign,
      mAsset, digRun, runLen, startsWith, hrt, hw0, htk, hclip]
  rw [hcands, pickBest_single]
  simp [Nat.add_comm]

theorem pickBest_triple (a b c : Nat × Nat × Option Token) :
    pickBest [a, b, c] =
      some (if better c (if better b a then b else a) then c
        else if better b a then b else a) := by
  simp only [pickBest, List.foldl]
  cases hab : better b a <;> simp [hab] <;> split <;> rfl

theorem startsWith_two (a b : Char) (l : List Char) (h : startsWith [a, b] l = true) :
    ∃ t, l = a :: b :: t := by
  cases l with
  | nil => simp [startsWith] at h
  | cons c1 rest =>
    cases rest with
    | nil => simp [startsWith] at h
    | cons c2 rest2 =>
      simp only [startsWith, Bool.and_eq_true, beq_iff_eq] at h
      exact ⟨rest2, by rw [h.1, h.2.1]⟩

theorem lex_selname_ident (w0 : Char) (wd' : List Char)
    (hAll : ∀ c ∈ w0 :: wd', isTextChar c = true)
    (hnh : ¬ ∀ c ∈ w0 :: wd', isHexDigit c = true) :
    lex_rsml ("#" ++ String.mk (w0 :: wd')) =
      [Token.Text (TextType.SelectorName (String.mk (w0 :: wd')))] := by
  have hw0 : isTextChar w0 = true := hAll w0 (by simp)
  have hrt : runLen isTextChar wd' = wd'.length :=
    runLen_of_all _ _ (fun c hc => hAll c (by simp [hc]))
  have hlt : runLen isHexDigit (w0 :: wd') < wd'.length + 1 := by
    have := runLen_lt_of_not_all isHexDigit (w0 :: wd') hnh
    simpa using this
  have htk : List.take (1 + (wd'.length + 1)) ('#' :: w0 :: wd') = '#' :: w0 :: wd' :=
    List.take_of_length_le (by simp <;> omega)
  have hclip : str_clip ('#' :: w0 :: wd') 1 0 = w0 :: wd' := by
    simp [str_clip]
  obtain ⟨m, hm⟩ : ∃ m, runLen isHexDigit (w0 :: wd') = m := ⟨_, rfl⟩
  have hhexm : mColorHex ('#' :: w0 :: wd') =
      if m = 0 then none else some (1 + m) := by
    simp [mColorHex, startsWith, hm]
  rw [hm] at hlt
  rw [show ("#" ++ String.mk (w0 :: wd')) = String.mk ('#' :: w0 :: wd') from rfl, lex_rsml_def]
  rw [show (String.mk ('#' :: w0 :: wd')).data.length = (w0 :: wd').length + 1 from by simp,
    show (String.mk ('#' :: w0 :: wd')).data = '#' :: w0 :: wd' from rfl]
  apply lexAux_of_pickBest _ _ 1
  by_cases hz : m = 0
  · have hcands : candidates ('#' :: w0 :: wd') =
        [(1 + (wd'.length + 1), 1,
            some (Token.Text (TextType.SelectorName (String.mk (w0 :: wd')))))] := by
      simp +decide [candidates, cand, mSkip, mPref, mSigil, mCommentSingle, mColorTw,
        mColorCss, mColorBc, mString, mNumSuffix, numCoreLen, numCoreLenNoSign,
        mAsset, digRun, runLen, startsWith, hrt, hw0, htk, hclip, hhexm, hz]
    rw [hcands, pickBest_single]
    simp [Nat.add_comm]
  · have hcands : candidates ('#' :: w0 :: wd') =
        [(1 + (wd'.length + 1), 1,
            some (Token.Text (TextType.SelectorName (String.mk (w0 :: wd'))))),
         (1 + m, 4,
            some (Token.DataType (DataType.ColorHex
              (String.mk (List.take (1 + m) ('#' :: w0 :: wd'))))))] := by
      simp +decide [candidates, cand, mSkip, mPref, mSigil, mCommentSingle, mColorTw,
        mColorCss, mColorBc, mString, mNumSuffix, numCoreLen, numCoreLenNoSign,
        mAsset, digRun, runLen, startsWith, hrt, hw0, htk, hclip, hhexm, hz]
    rw [hcands, pickBest_pair]
    have hb : better
        (1 + m, 4,
          some (Token.DataType (DataType.ColorHex
            (String.mk (List.take (1 + m) ('#' :: w0 :: wd'))))))
        (1 + (wd'.length + 1), 1,
          some (Token.Text (TextType.SelectorName (String.mk (w0 :: wd'))))) = false := by
      have h1 : ¬ (1 + (wd'.length + 1) < 1 + m) := by omega
      have h2 : ¬ (1 + (wd'.length + 1) = 1 + m) := by omega
      simp [better, h1, h2]
    rw [hb]
    simp [Nat.add_comm]

theorem lex_tag_ident (w0 : Char) (wd' : List Char)
    (hAll : ∀ c ∈ w0 :: wd', isTextChar c = true)
    (hnd : ¬ ∀ c ∈ w0 :: wd', Char.isDigit c = true)
    (hnpx : ¬ (0 < digRun (w0 :: wd') ∧
      (w0 :: wd').drop (digRun (w0 :: wd')) = ['p', 'x'])) :
    lex_rsml ("." ++ String.mk (w0 :: wd')) =
      [Token.Text (TextType.SelectorTagOrEnumPart (String.mk (w0 :: wd')))] := by
  have hw0 : isTextChar w0 = true := hAll w0 (by simp)
  have hrt : runLen isTextChar wd' = wd'.length :=
    runLen_of_all _ _ (fun c hc => hAll c (by simp [hc]))
  have htk : List.take (1 + (wd'.length + 1)) ('.' :: w0 :: wd') = '.' :: w0 :: wd' :=
    List.take_of_length_le (by simp <;> omega)
  have hclip : str_clip ('.' :: w0 :: wd') 1 0 = w0 :: wd' := by
    simp [str_clip]
  obtain ⟨m, hm⟩ : ∃ m, digRun (w0 :: wd') = m := ⟨_, rfl⟩
  have hmlt : m < wd'.length + 1 := by
    have := runLen_lt_of_not_all Char.isDigit (w0 :: wd') hnd
    rw [show runLen Char.isDigit (w0 :: wd') = digRun (w0 :: wd') from rfl, hm] at this
    simpa using this
  have hd0 : digRun ('.' :: w0 :: wd') = 0 := runLen_cons_neg _ _ _ (by decide)
  have hcore : numCoreLen ('.' :: w0 :: wd') = if m = 0 then none else some (1 + m) := by
    simp +decide [numCoreLen, numCoreLenNoSign, startsWith, hd0, hm]
  have hdropm : ('.' :: w0 :: wd').drop (1 + m) = (w0 :: wd').drop m := by
    rw [Nat.add_comm, List.drop_succ_cons]
  rw [hm] at hnpx
  rw [show ("." ++ String.mk (w0 :: wd')) = String.mk ('.' :: w0 :: wd') from rfl, lex_rsml_def]
  rw [show (String.mk ('.' :: w0 :: wd')).data.length = (w0 :: wd').length + 1 from by simp,
    show (String.mk ('.' :: w0 :: wd')).data = '.' :: w0 :: wd' from rfl]
  apply lexAux_of_pickBest _ _ 1
  have hpc : startsWith ['%'] ((w0 :: wd').drop m) = false := by
    cases hdf : (w0 :: wd').drop m with
    | nil => simp [startsWith]
    | cons d ds =>
      have hd : isTextChar d = true := hAll d (List.drop_subset _ _ (by rw [hdf]; simp))
      simp [startsWith, beq_false_of_textChar '%' d (by decide) hd]
  by_cases hz : m = 0
  · have hcands : candidates ('.' :: w0 :: wd') =
        [(1 + (wd'.length + 1), 1,
            some (Token.Text (TextType.SelectorTagOrEnumPart (String.mk (w0 :: wd')))))] := by
      simp +decide [candidates, cand, mSkip, mPref, mSigil, mCommentSingle, mColorTw,
        mColorCss, mColorBc, mColorHex, mString, mNumSuffix,
        mAsset, digRun, runLen, startsWith, hrt, hw0, htk, hclip, hcore, hz]
    rw [hcands, pickBest_single]
    simp [Nat.add_comm]
  · by_cases hpx : startsWith ['p', 'x'] ((w0 :: wd').drop m) = true
    · obtain ⟨t, ht⟩ := startsWith_two 'p' 'x' _ hpx
      have htne : t ≠ [] := by
        intro h0
        exact hnpx ⟨by omega, by rw [ht, h0]⟩
      have hmle : m ≤ wd'.length + 1 := by omega
      have hlen3 : m + 3 ≤ wd'.length + 1 := by
        have hld : ((w0 :: wd').drop m).length = (wd'.length + 1) - m := by
          simp [List.length_drop]
        rw [ht] at hld
        have : 1 ≤ t.length := by
          cases t with
          | nil => exact absurd rfl htne
          | cons x xs => simp
        simp only [List.length_cons] at hld
        omega
      have hcands : candidates ('.' :: w0 :: wd') =
          [(1 + (wd'.length + 1), 1,
              some (Token.Text (TextType.SelectorTagOrEnumPart (String.mk (w0 :: wd'))))),
           (1 + m + 2, 4,
              some (Token.DataType (DataType.NumberOffset
                (f64OrZero (str_clip (List.take (1 + m + 2) ('.' :: w0 :: wd')) 0 2))))),
           (1 + m, 4,
              some (Token.DataType (DataType.Number
                (f64OrZero (List.take (1 + m) ('.' :: w0 :: wd'))))))] := by
        simp +decide [candidates, cand, mSkip, mPref, mSigil, mCommentSingle, mColorTw,
          mColorCss, mColorBc, mColorHex, mString, mNumSuffix,
          mAsset, digRun, runLen, startsWith, hrt, hw0, htk, hclip, hcore, hz, hdropm,
          hpx, hpc]
      have hb1 : better
          (1 + m + 2, 4,
            some (Token.DataType (DataType.NumberOffset
              (f64OrZero (str_clip (List.take (1 + m + 2) ('.' :: w0 :: wd')) 0 2)))))
          (1 + (wd'.length + 1), 1,
            some (Token.Text (TextType.SelectorTagOrEnumPart (String.mk (w0 :: wd'))))) =
            false := by
        have h1 : ¬ (1 + (wd'.length + 1) < 1 + m + 2) := by omega
        have h2 : ¬ (1 + (wd'.length + 1) = 1 + m + 2) := by omega
        simp [better, h1, h2]
      have hb2 : better
          (1 + m, 4,
            some (Token.DataType (DataType.Number
              (f64OrZero (List.take (1 + m) ('.' :: w0 :: wd'))))))
          (1 + (wd'.length + 1), 1,
            some (Token.Text (TextType.SelectorTagOrEnumPart (String.mk (w0 :: wd'))))) =
            false := by
        have h1 : ¬ (1 + (wd'.length + 1) < 1 + m) := by omega
        have h2 : ¬ (1 + (wd'.length + 1) = 1 + m) := by omega
        simp [better, h1, h2]
      rw [hcands, pickBest_triple, hb1]
      rw [if_neg (show ¬ (false = true) by simp)]
      rw [hb2]
      rw [if_neg (show ¬ (false = true) by simp)]
      simp [Nat.add_comm]
    · have hcands : candidates ('.' :: w0 :: wd') =
          [(1 + (wd'.length + 1), 1,
              some (Token.Text (TextType.SelectorTagOrEnumPart (String.mk (w0 :: wd'))))),
           (1 + m, 4,
              some (Token.DataType (DataType.Number
                (f64OrZero (List.take (1 + m) ('.' :: w0 :: wd'))))))] := by
        simp +decide [candidates, cand, mSkip, mPref, mSigil, mCommentSingle, mColorTw,
          mColorCss, mColorBc, mColorHex, mString, mNumSuffix,
          mAsset, digRun, runLen, startsWith, hrt, hw0, htk, hclip, hcore, hz, hdropm,
          hpx, hpc]
      rw [hcands, pickBest_pair]
      have hb : better
          (1 + m, 4,
            some (Token.DataType (DataType.Number
              (f64OrZero (List.take (1 + m) ('.' :: w0 :: wd'))))))
          (1 + (wd'.length + 1), 1,
            some (Token.Text (TextType.SelectorTagOrEnumPart (String.mk (w0 :: wd'))))) =
            false := by
        have h1 : ¬ (1 + (wd'.length + 1) < 1 + m) := by omega
        have h2 : ¬ (1 + (wd'.length + 1) = 1 + m) := by omega
        simp [better, h1, h2]
      rw [hb]
      simp [Nat.add_comm]

/-- C5 — sigil-prefixed text tokens carry the lexeme with the sigil
stripped: one leading character for `#`, `.`, `:`, `$`, `!` and two for
`::` and `$!`; and a lexeme beginning `::` lexes as a single
`SelectorPsuedo` token, never as `Colon` followed by
`SelectorStateOrEnumPart`. The `#` form requires the identifier not to be
all hex digits (then `ColorHex` outranks it — claim C8), and the `.` form
requires the identifier not to be a bare number or number-with-`px`
(then the number rules win by priority at equal length). -/
theorem c5_sigil_text : ∀ w : String, w ≠ "" → (∀ c ∈ w.data, isTextChar c = true) →
    lex_rsml (":" ++ w) = [Token.Text (TextType.SelectorStateOrEnumPart w)]
      ∧ lex_rsml ("::" ++ w) = [Token.Text (TextType.SelectorPsuedo w)]
      ∧ lex_rsml ("$" ++ w) = [Token.Text (TextType.Variable w)]
      ∧ lex_rsml ("$!" ++ w) = [Token.Text (TextType.Argument w)]
      ∧ lex_rsml ("!" ++ w) = [Token.Text (TextType.PsuedoProperty w)]
      ∧ (¬ (∀ c ∈ w.data, isHexDigit c = true) →
          lex_rsml ("#" ++ w) = [Token.Text (TextType.SelectorName w)])
      ∧ (¬ (∀ c ∈ w.data, Char.isDigit c = true) →
          ¬ (0 < digRun w.data ∧ w.data.drop (digRun w.data) = ['p', 'x']) →
          lex_rsml ("." ++ w) = [Token.Text (TextType.SelectorTagOrEnumPart w)]) := by
  intro w hne hAll
  obtain ⟨wd⟩ := w
  obtain ⟨w0, wd', rfl⟩ : ∃ w0 wd', wd = w0 :: wd' := by
    cases wd with
    | nil => exact absurd (by decide) hne
    | cons a b => exact ⟨a, b, rfl⟩
  exact ⟨lex_state_ident w0 wd' hAll, lex_psuedo_ident w0 wd' hAll,
    lex_variable_ident w0 wd' hAll, lex_argument_ident w0 wd' hAll,
    lex_psuedoprop_ident w0 wd' hAll, fun hnh => lex_selname_ident w0 wd' hAll hnh,
    fun hnd hnpx => lex_tag_ident w0 wd' hAll hnd hnpx⟩

theorem c5_witness :
    lex_rsml "::Btn" = [Token.Text (TextType.SelectorPsuedo "Btn")]
      ∧ lex_rsml "#Btn" = [Token.Text (TextType.SelectorName "Btn")]
      ∧ lex_rsml ".Btn" = [Token.Text (TextType.SelectorTagOrEnumPart "Btn")] :=
  ⟨(c5_sigil_text "Btn" (by decide) (by decide)).2.1,
   (c5_sigil_text "Btn" (by decide) (by decide)).2.2.2.2.2.1 (by decide),
   (c5_sigil_text "Btn" (by decide) (by decide)).2.2.2.2.2.2 (by decide) (by decide)⟩

/-! ## C3: numeric literals with `px` and `%` suffixes -/

theorem pb2_left (a b : Nat × Nat × Option Token) (h : better b a = false) : pb2 a b = a := by
  simp [pb2, h]

theorem pb2_right (a b : Nat × Nat × Option Token) (h : better b a = true) : pb2 a b = b := by
  simp [pb2, h]

theorem pickBest_cons_foldl (a : Nat × Nat × Option Token)
    (l : List (Nat × Nat × Option Token)) :
    pickBest (a :: l) = some (l.foldl pb2 a) := by
  have h : ∀ (l : List (Nat × Nat × Option Token)) (a : Nat × Nat × Option Token),
      List.foldl
        (fun acc c =>
          match acc with
          | none => some c
          | some b => if better c b then some c else some b)
        (some a) l = some (l.foldl pb2 a) := by
    intro l
    induction l with
    | nil => intro a; rfl
    | cons x xs ih =>
      intro a
      simp only [List.foldl, pb2]
      cases hx : better x a <;> simp [hx, ih]
  simp only [pickBest, List.foldl]
  exact h l a

theorem beq_false_of_digit (a c : Char) (ha : Char.isDigit a = false)
    (hc : Char.isDigit c = true) : (a == c) = false := by
  cases h : a == c
  · rfl
  · rw [beq_iff_eq] at h
    rw [h, hc] at ha
    exact absurd ha (by simp)

theorem digRun_append_of_all (ds rest : List Char) (hds : ∀ c ∈ ds, Char.isDigit c = true) :
    digRun (ds ++ rest) = ds.length + digRun rest :=
  runLen_append_of_all Char.isDigit ds rest hds

/-- The greedy mantissa scan on a full dotless mantissa followed by a
suffix that starts with neither a digit nor a dot returns exactly the
mantissa's length. -/
theorem numCoreLenNoSign_nodot (ds rest : List Char)
    (hds : ∀ c ∈ ds, Char.isDigit c = true) (hdsne : ds ≠ [])
    (hr0 : digRun rest = 0) (hrdot : startsWith ['.'] rest = false) :
    numCoreLenNoSign (ds ++ rest) = some ds.length := by
  have hlds : ds.length ≠ 0 := by simpa [List.length_eq_zero] using hdsne
  have hd : digRun (ds ++ rest) = ds.length := by
    rw [digRun_append_of_all ds rest hds, hr0]
    omega
  have hdrop : (ds ++ rest).drop ds.length = rest := List.drop_left ds rest
  simp [numCoreLenNoSign, hd, hlds, hdrop, hrdot]

/-- The greedy mantissa scan on a full dotted mantissa followed by such a
suffix, likewise. -/
theorem numCoreLenNoSign_dot (ds fs rest : List Char)
    (hds : ∀ c ∈ ds, Char.isDigit c = true) (hfs : ∀ c ∈ fs, Char.isDigit c = true)
    (hne : ds ≠ [] ∨ fs ≠ [])
    (hr0 : digRun rest = 0) (hrdot : startsWith ['.'] rest = false) :
    numCoreLenNoSign (ds ++ ('.' :: fs) ++ rest) = some (ds.length + 1 + fs.length) := by
  have hfr : digRun (fs ++ rest) = fs.length := by
    rw [digRun_append_of_all fs rest hfs, hr0]
    omega
  cases hde : ds with
  | nil =>
    have hfse : fs ≠ [] := by
      rcases hne with h | h
      · exact absurd hde h
      · exact h
    have hlfs : fs.length ≠ 0 := by simpa [List.length_eq_zero] using hfse
    have h0 : digRun ('.' :: (fs ++ rest)) = 0 := runLen_cons_neg _ _ _ (by decide)
    subst hde
    simp only [List.nil_append, List.length_nil, Nat.zero_add]
    simp [numCoreLenNoSign, h0, startsWith, hfr, hlfs]
  | cons d0 ds' =>
    rw [← hde]
    have hdsne : ds ≠ [] := by rw [hde]; simp
    have hlds : ds.length ≠ 0 := by simpa [List.length_eq_zero] using hdsne
    have h0 : digRun ('.' :: (fs ++ rest)) = 0 := runLen_cons_neg _ _ _ (by decide)
    have hd : digRun (ds ++ '.' :: (fs ++ rest)) = ds.length := by
      rw [digRun_append_of_all ds _ hds, h0]
      omega
    have hdrop : (ds ++ '.' :: (fs ++ rest)).drop ds.length = '.' :: (fs ++ rest) :=
      List.drop_left ds _
    have hdrop2 : (ds ++ '.' :: (fs ++ rest)).drop (ds.length + 1) = fs ++ rest := by
      have hsplit : ds ++ '.' :: (fs ++ rest) = (ds ++ ['.']) ++ (fs ++ rest) := by simp
      rw [hsplit, show ds.length + 1 = (ds ++ ['.']).length by simp, List.drop_left]
    have hgoal : ds ++ ('.' :: fs) ++ rest = ds ++ '.' :: (fs ++ rest) := by simp
    rw [hgoal]
    simp [numCoreLenNoSign, hd, hlds, hdrop, hdrop2, startsWith, hfr]

theorem numCoreLen_of_nosign (X : List Char) (n : Nat)
    (h1 : startsWith ['+'] X = false) (h2 : startsWith ['-'] X = false)
    (hns : numCoreLenNoSign X = some n) : numCoreLen X = some n := by
  simp [numCoreLen, h1, h2, hns]

theorem numCoreLen_of_sign (s : Char) (hs : s = '+' ∨ s = '-') (X : List Char) (n : Nat)
    (hns : numCoreLenNoSign X = some n) : numCoreLen (s :: X) = some (n + 1) := by
  rcases hs with h | h <;> subst h <;> simp [numCoreLen, startsWith, hns]

theorem better_false_len (a b : Nat × Nat × Option Token) (h1 : ¬ (b.1 < a.1))
    (h2 : ¬ (b.1 = a.1)) : better a b = false := by
  simp [better, h1, h2]

theorem better_true_le (a b : Nat × Nat × Option Token) (hle : b.1 ≤ a.1)
    (hp : b.2.1 < a.2.1) : better a b = true := by
  rcases Nat.lt_or_ge b.1 a.1 with h | h
  · simp [better, h]
  · have he : b.1 = a.1 := by omega
    simp [better, he, hp]

theorem foldl_pb2_head (a : Nat × Nat × Option Token)
    (l : List (Nat × Nat × Option Token)) (h : ∀ b ∈ l, better b a = false) :
    l.foldl pb2 a = a := by
  induction l with
  | nil => rfl
  | cons x xs ih =>
    simp only [List.foldl]
    rw [pb2_left a x (h x (by simp))]
    exact ih (fun b hb => h b (by simp [hb]))

theorem pickBest_first_wins (a : Nat × Nat × Option Token)
    (l : List (Nat × Nat × Option Token)) (h : ∀ c ∈ l, better c a = false) :
    pickBest (a :: l) = some a := by
  rw [pickBest_cons_foldl, foldl_pb2_head a l h]

theorem pickBest_second_wins (a b : Nat × Nat × Option Token)
    (l : List (Nat × Nat × Option Token)) (hba : better b a = true)
    (hrest : ∀ c ∈ l, better c b = false) :
    pickBest (a :: b :: l) = some b := by
  rw [pickBest_cons_foldl]
  simp only [List.foldl]
  rw [pb2_right a b hba, foldl_pb2_head b l hrest]

theorem lex_num_plus (t : List Char)
    (hqpx : numCoreLen ('+' :: (t ++ ['p', 'x'])) = some (t.length + 1))
    (hqpc : numCoreLen ('+' :: (t ++ ['%'])) = some (t.length + 1)) :
    lex_rsml (String.mk ('+' :: (t ++ ['p', 'x']))) =
        [Token.DataType (DataType.NumberOffset (f64OrZero ('+' :: t)))]
      ∧ lex_rsml (String.mk ('+' :: (t ++ ['%']))) =
        [Token.DataType (DataType.NumberScale (scaleOrZero ('+' :: t)))] := by
  constructor
  · rw [lex_rsml_def,
      show (String.mk ('+' :: (t ++ ['p', 'x']))).data.length = (t ++ ['p', 'x']).length + 1
        from by simp,
      show (String.mk ('+' :: (t ++ ['p', 'x']))).data = '+' :: (t ++ ['p', 'x']) from rfl]
    apply lexAux_of_pickBest _ _ 4
    have hdropn : ('+' :: (t ++ ['p', 'x'])).drop (t.length + 1) = ['p', 'x'] := by
      rw [List.drop_succ_cons, List.drop_left]
    have htkn : ('+' :: (t ++ ['p', 'x'])).take (t.length + 1) = '+' :: t := by
      rw [List.take_succ_cons, List.take_left]
    have htka : ('+' :: (t ++ ['p', 'x'])).take (t.length + 1 + 2) = '+' :: (t ++ ['p', 'x']) :=
      List.take_of_length_le (by simp)
    have hclip : str_clip ('+' :: (t ++ ['p', 'x'])) 0 2 = '+' :: t := by
      simp only [str_clip, List.drop_zero]
      rw [show ('+' :: (t ++ ['p', 'x'])).length - 2 - 0 = t.length + 1 from by simp, htkn]
    have hcands : candidates ('+' :: (t ++ ['p', 'x'])) =
        [(t.length + 1 + 2, 4,
            some (Token.DataType (DataType.NumberOffset (f64OrZero ('+' :: t))))),
         (t.length + 1, 4,
            some (Token.DataType (DataType.Number (f64OrZero ('+' :: t))))),
         (1, 2, some (Token.Operator Operator.Plus))] := by
      simp +decide [candidates, cand, mSkip, mPref, mSigil, mCommentSingle, mColorTw,
        mColorCss, mColorBc, mColorHex, mString, mNumSuffix, mAsset, digRun, runLen,
        startsWith, hqpx, hdropn, htkn, htka, hclip]
    rw [hcands,
      show (t ++ ['p', 'x']).length + 1 = t.length + 1 + 2 from by simp <;> omega]
    apply pickBest_first_wins
    intro c hc
    rcases List.mem_cons.mp hc with h | h
    · subst h
      exact better_false_len _ _ (by simp <;> omega) (by simp <;> omega)
    · rcases List.mem_cons.mp h with h2 | h2
      · subst h2
        exact better_false_len _ _ (by simp <;> omega) (by simp <;> omega)
      · simp at h2
  · rw [lex_rsml_def,
      show (String.mk ('+' :: (t ++ ['%']))).data.length = (t ++ ['%']).length + 1
        from by simp,
      show (String.mk ('+' :: (t ++ ['%']))).data = '+' :: (t ++ ['%']) from rfl]
    apply lexAux_of_pickBest _ _ 4
    have hdropn : ('+' :: (t ++ ['%'])).drop (t.length + 1) = ['%'] := by
      rw [List.drop_succ_cons, List.drop_left]
    have htkn : ('+' :: (t ++ ['%'])).take (t.length + 1) = '+' :: t := by
      rw [List.take_succ_cons, List.take_left]
    have htka : ('+' :: (t ++ ['%'])).take (t.length + 1 + 1) = '+' :: (t ++ ['%']) :=
      List.take_of_length_le (by simp)
    have hclip : str_clip ('+' :: (t ++ ['%'])) 0 1 = '+' :: t := by
      simp only [str_clip, List.drop_zero]
      rw [show ('+' :: (t ++ ['%'])).length - 1 - 0 = t.length + 1 from by simp, htkn]
    have hcands : candidates ('+' :: (t ++ ['%'])) =
        [(t.length + 1 + 1, 4,
            some (Token.DataType (DataType.NumberScale (scaleOrZero ('+' :: t))))),
         (t.length + 1, 4,
            some (Token.DataType (DataType.Number (f64OrZero ('+' :: t))))),
         (1, 2, some (Token.Operator Operator.Plus))] := by
      simp +decide [candidates, cand, mSkip, mPref, mSigil, mCommentSingle, mColorTw,
        mColorCss, mColorBc, mColorHex, mString, mNumSuffix, mAsset, digRun, runLen,
        startsWith, hqpc, hdropn, htkn, htka, hclip]
    rw [hcands,
      show (t ++ ['%']).length + 1 = t.length + 1 + 1 from by simp]
    apply pickBest_first_wins
    intro c hc
    rcases List.mem_cons.mp hc with h | h
    · subst h
      exact better_false_len _ _ (by simp <;> omega) (by simp <;> omega)
    · rcases List.mem_cons.mp h with h2 | h2
      · subst h2
        exact better_false_len _ _ (by simp <;> omega) (by simp <;> omega)
      · simp at h2

theorem isTextChar_of_digit (c : Char) (h : Char.isDigit c = true) : isTextChar c = true := by
  simp [isTextChar, h]

theorem beq_false_of_digit_left (c a : Char) (hc : Char.isDigit c = true)
    (ha : Char.isDigit a = false) : (c == a) = false := by
  cases h : c == a
  · rfl
  · rw [beq_iff_eq] at h
    rw [← h, hc] at ha
    exact absurd ha (by simp)

theorem isSkipWs_false_of_digit (c : Char) (h : Char.isDigit c = true) : isSkipWs c = false := by
  simp only [isSkipWs, Bool.or_eq_false_iff]
  refine ⟨⟨⟨?_, ?_⟩, ?_⟩, ?_⟩ <;> exact beq_false_of_digit_left c _ h (by decide)

theorem lex_num_minus (t : List Char) (t0 : Char) (t' : List Char) (ht : t = t0 :: t')
    (ht0 : Char.isDigit t0 = true ∨ t0 = '.')
    (hqpx : numCoreLen ('-' :: (t ++ ['p', 'x'])) = some (t.length + 1))
    (hqpc : numCoreLen ('-' :: (t ++ ['%'])) = some (t.length + 1)) :
    lex_rsml (String.mk ('-' :: (t ++ ['p', 'x']))) =
        [Token.DataType (DataType.NumberOffset (f64OrZero ('-' :: t)))]
      ∧ lex_rsml (String.mk ('-' :: (t ++ ['%']))) =
        [Token.DataType (DataType.NumberScale (scaleOrZero ('-' :: t)))] := by
  have ht0ne : ('-' == t0) = false := by
    rcases ht0 with h | h
    · exact beq_false_of_digit '-' t0 (by decide) h
    · subst h; decide
  constructor
  · rw [lex_rsml_def,
      show (String.mk ('-' :: (t ++ ['p', 'x']))).data.length = (t ++ ['p', 'x']).length + 1
        from by simp,
      show (String.mk ('-' :: (t ++ ['p', 'x']))).data = '-' :: (t ++ ['p', 'x']) from rfl]
    apply lexAux_of_pickBest _ _ 4
    have hsw1 : startsWith ['-'] (t ++ ['p', 'x']) = false := by
      rw [ht]
      simp [startsWith, ht0ne]
    have hsw3 : startsWith ['-', '[', '['] (t ++ ['p', 'x']) = false := by
      rw [ht]
      simp [startsWith, ht0ne]
    have hdropn : ('-' :: (t ++ ['p', 'x'])).drop (t.length + 1) = ['p', 'x'] := by
      rw [List.drop_succ_cons, List.drop_left]
    have htkn : ('-' :: (t ++ ['p', 'x'])).take (t.length + 1) = '-' :: t := by
      rw [List.take_succ_cons, List.take_left]
    have htka : ('-' :: (t ++ ['p', 'x'])).take (t.length + 1 + 2) = '-' :: (t ++ ['p', 'x']) :=
      List.take_of_length_le (by simp)
    have hclip : str_clip ('-' :: (t ++ ['p', 'x'])) 0 2 = '-' :: t := by
      simp only [str_clip, List.drop_zero]
      rw [show ('-' :: (t ++ ['p', 'x'])).length - 2 - 0 = t.length + 1 from by simp, htkn]
    have hr : runLen isTextChar (t ++ ['p', 'x']) ≤ t.length + 2 := by
      have := runLen_le isTextChar (t ++ ['p', 'x'])
      simpa using this
    have hcands : candidates ('-' :: (t ++ ['p', 'x'])) =
        [(runLen isTextChar (t ++ ['p', 'x']) + 1, 1,
            some (Token.Text (TextType.NonSpecial
              (String.mk ('-' :: List.take (runLen isTextChar (t ++ ['p', 'x']))
                (t ++ ['p', 'x'])))))),
         (t.length + 1 + 2, 4,
            some (Token.DataType (DataType.NumberOffset (f64OrZero ('-' :: t))))),
         (t.length + 1, 4,
            some (Token.DataType (DataType.Number (f64OrZero ('-' :: t))))),
         (1, 2, some (Token.Operator Operator.Sub))] := by
      simp +decide [candidates, cand, mSkip, mPref, mSigil, mCommentSingle, mColorTw,
        mColorCss, mColorBc, mColorHex, mString, mNumSuffix, mAsset, digRun, runLen,
        startsWith, hqpx, hdropn, htkn, htka, hclip, hsw1, hsw3]
    rw [hcands,
      show (t ++ ['p', 'x']).length + 1 = t.length + 1 + 2 from by simp <;> omega]
    apply pickBest_second_wins
    · exact better_true_le _ _ (by simp <;> omega) (by simp <;> omega)
    · intro c hc
      rcases List.mem_cons.mp hc with h | h
      · subst h
        exact better_false_len _ _ (by simp <;> omega) (by simp <;> omega)
      · rcases List.mem_cons.mp h with h2 | h2
        · subst h2
          exact better_false_len _ _ (by simp <;> omega) (by simp <;> omega)
        · simp at h2
  · rw [lex_rsml_def,
      show (String.mk ('-' :: (t ++ ['%']))).data.length = (t ++ ['%']).length + 1
        from by simp,
      show (String.mk ('-' :: (t ++ ['%']))).data = '-' :: (t ++ ['%']) from rfl]
    apply lexAux_of_pickBest _ _ 4
    have hsw1 : startsWith ['-'] (t ++ ['%']) = false := by
      rw [ht]
      simp [startsWith, ht0ne]
    have hsw3 : startsWith ['-', '[', '['] (t ++ ['%']) = false := by
      rw [ht]
      simp [startsWith, ht0ne]
    have hdropn : ('-' :: (t ++ ['%'])).drop (t.length + 1) = ['%'] := by
      rw [List.drop_succ_cons, List.drop_left]
    have htkn : ('-' :: (t ++ ['%'])).take (t.length + 1) = '-' :: t := by
      rw [List.take_succ_cons, List.take_left]
    have htka : ('-' :: (t ++ ['%'])).take (t.length + 1 + 1) = '-' :: (t ++ ['%']) :=
      List.take_of_length_le (by simp)
    have hclip : str_clip ('-' :: (t ++ ['%'])) 0 1 = '-' :: t := by
      simp only [str_clip, List.drop_zero]
      rw [show ('-' :: (t ++ ['%'])).length - 1 - 0 = t.length + 1 from by simp, htkn]
    have hr : runLen isTextChar (t ++ ['%']) ≤ t.length + 1 := by
      have := runLen_le isTextChar (t ++ ['%'])
      simpa using this
    have hcands : candidates ('-' :: (t ++ ['%'])) =
        [(runLen isTextChar (t ++ ['%']) + 1, 1,
            some (Token.Text (TextType.NonSpecial
              (String.mk ('-' :: List.take (runLen isTextChar (t ++ ['%']))
                (t ++ ['%'])))))),
         (t.length + 1 + 1, 4,
            some (Token.DataType (DataType.NumberScale (scaleOrZero ('-' :: t))))),
         (t.length + 1, 4,
            some (Token.DataType (DataType.Number (f64OrZero ('-' :: t))))),
         (1, 2, some (Token.Operator Operator.Sub))] := by
      simp +decide [candidates, cand, mSkip, mPref, mSigil, mCommentSingle, mColorTw,
        mColorCss, mColorBc, mColorHex, mString, mNumSuffix, mAsset, digRun, runLen,
        startsWith, hqpc, hdropn, htkn, htka, hclip, hsw1, hsw3]
    rw [hcands,
      show (t ++ ['%']).length + 1 = t.length + 1 + 1 from by simp]
    apply pickBest_second_wins
    · exact better_true_le _ _ (by simp <;> omega) (by simp <;> omega)
    · intro c hc
      rcases List.mem_cons.mp hc with h | h
      · subst h
        exact better_false_len _ _ (by simp <;> omega) (by simp <;> omega)
      · rcases List.mem_cons.mp h with h2 | h2
        · subst h2
          exact better_false_len _ _ (by simp <;> omega) (by simp <;> omega)
        · simp at h2

theorem lex_num_digit (d : Char) (hd : Char.isDigit d = true) (t : List Char)
    (hqpx : numCoreLen (d :: (t ++ ['p', 'x'])) = some (t.length + 1))
    (hqpc : numCoreLen (d :: (t ++ ['%'])) = some (t.length + 1)) :
    lex_rsml (String.mk (d :: (t ++ ['p', 'x']))) =
        [Token.DataType (DataType.NumberOffset (f64OrZero (d :: t)))]
      ∧ lex_rsml (String.mk (d :: (t ++ ['%']))) =
        [Token.DataType (DataType.NumberScale (scaleOrZero (d :: t)))] := by
  have htc : isTextChar d = true := isTextChar_of_digit d hd
  have hws : isSkipWs d = false := isSkipWs_false_of_digit d hd
  constructor
  · rw [lex_rsml_def,
      show (String.mk (d :: (t ++ ['p', 'x']))).data.length = (t ++ ['p', 'x']).length + 1
        from by simp,
      show (String.mk (d :: (t ++ ['p', 'x']))).data = d :: (t ++ ['p', 'x']) from rfl]
    apply lexAux_of_pickBest _ _ 4
    have hdropn : (d :: (t ++ ['p', 'x'])).drop (t.length + 1) = ['p', 'x'] := by
      rw [List.drop_succ_cons, List.drop_left]
    have htkn : (d :: (t ++ ['p', 'x'])).take (t.length + 1) = d :: t := by
      rw [List.take_succ_cons, List.take_left]
    have htka : (d :: (t ++ ['p', 'x'])).take (t.length + 1 + 2) = d :: (t ++ ['p', 'x']) :=
      List.take_of_length_le (by simp)
    have hclip : str_clip (d :: (t ++ ['p', 'x'])) 0 2 = d :: t := by
      simp only [str_clip, List.drop_zero]
      rw [show (d :: (t ++ ['p', 'x'])).length - 2 - 0 = t.length + 1 from by simp, htkn]
    have hr : runLen isTextChar (t ++ ['p', 'x']) ≤ t.length + 2 := by
      have := runLen_le isTextChar (t ++ ['p', 'x'])
      simpa using this
    have hcands : candidates (d :: (t ++ ['p', 'x'])) =
        [(runLen isTextChar (t ++ ['p', 'x']) + 1, 1,
            some (Token.Text (TextType.NonSpecial
              (String.mk (d :: List.take (runLen isTextChar (t ++ ['p', 'x']))
                (t ++ ['p', 'x'])))))),
         (t.length + 1 + 2, 4,
            some (Token.DataType (DataType.NumberOffset (f64OrZero (d :: t))))),
         (t.length + 1, 4,
            some (Token.DataType (DataType.Number (f64OrZero (d :: t)))))] := by
      simp +decide [candidates, cand, mSkip, mPref, mSigil, mCommentSingle, mColorTw,
        mColorCss, mColorBc, mColorHex, mString, mNumSuffix, mAsset, digRun, runLen,
        startsWith, hqpx, hdropn, htkn, htka, hclip, htc, hws, hd,
        beq_false_of_digit, beq_false_of_digit_left]
    rw [hcands,
      show (t ++ ['p', 'x']).length + 1 = t.length + 1 + 2 from by simp <;> omega]
    apply pickBest_second_wins
    · exact better_true_le _ _ (by simp <;> omega) (by simp <;> omega)
    · intro c hc
      rcases List.mem_cons.mp hc with h | h
      · subst h
        exact better_false_len _ _ (by simp <;> omega) (by simp <;> omega)
      · simp at h
  · rw [lex_rsml_def,
      show (String.mk (d :: (t ++ ['%']))).data.length = (t ++ ['%']).length + 1
        from by simp,
      show (String.mk (d :: (t ++ ['%']))).data = d :: (t ++ ['%']) from rfl]
    apply lexAux_of_pickBest _ _ 4
    have hdropn : (d :: (t ++ ['%'])).drop (t.length + 1) = ['%'] := by
      rw [List.drop_succ_cons, List.drop_left]
    have htkn : (d :: (t ++ ['%'])).take (t.length + 1) = d :: t := by
      rw [List.take_succ_cons, List.take_left]
    have htka : (d :: (t ++ ['%'])).take (t.length + 1 + 1) = d :: (t ++ ['%']) :=
      List.take_of_length_le (by simp)
    have hclip : str_clip (d :: (t ++ ['%'])) 0 1 = d :: t := by
      simp only [str_clip, List.drop_zero]
      rw [show (d :: (t ++ ['%'])).length - 1 - 0 = t.length + 1 from by simp, htkn]
    have hr : runLen isTextChar (t ++ ['%']) ≤ t.length + 1 := by
      have := runLen_le isTextChar (t ++ ['%'])
      simpa using this
    have hcands : candidates (d :: (t ++ ['%'])) =
        [(runLen isTextChar (t ++ ['%']) + 1, 1,
            some (Token.Text (TextType.NonSpecial
              (String.mk (d :: List.take (runLen isTextChar (t ++ ['%']))
                (t ++ ['%'])))))),
         (t.length + 1 + 1, 4,
            some (Token.DataType (DataType.NumberScale (scaleOrZero (d :: t))))),
         (t.length + 1, 4,
            some (Token.DataType (DataType.Number (f64OrZero (d :: t)))))] := by
      simp +decide [candidates, cand, mSkip, mPref, mSigil, mCommentSingle, mColorTw,
        mColorCss, mColorBc, mColorHex, mString, mNumSuffix, mAsset, digRun, runLen,
        startsWith, hqpc, hdropn, htkn, htka, hclip, htc, hws, hd,
        beq_false_of_digit, beq_false_of_digit_left]
    rw [hcands,
      show (t ++ ['%']).length + 1 = t.length + 1 + 1 from by simp]
    apply pickBest_second_wins
    · exact better_true_le _ _ (by simp <;> omega) (by simp <;> omega)
    · intro c hc
      rcases List.mem_cons.mp hc with h | h
      · subst h
        exact better_false_len _ _ (by simp <;> omega) (by simp <;> omega)
      · simp at h

theorem lex_num_dot (f0 : Char) (fs' : List Char) (hf0 : Char.isDigit f0 = true) :
    ∀ (fs : List Char), fs = f0 :: fs' →
    numCoreLen ('.' :: (fs ++ ['p', 'x'])) = some (fs.length + 1) →
    numCoreLen ('.' :: (fs ++ ['%'])) = some (fs.length + 1) →
    lex_rsml (String.mk ('.' :: (fs ++ ['p', 'x']))) =
        [Token.DataType (DataType.NumberOffset (f64OrZero ('.' :: fs)))]
      ∧ lex_rsml (String.mk ('.' :: (fs ++ ['%']))) =
        [Token.DataType (DataType.NumberScale (scaleOrZero ('.' :: fs)))] := by
  intro fs hfs hqpx hqpc
  have hX0px : ¬ (runLen isTextChar (fs ++ ['p', 'x']) = 0) := by
    rw [hfs, List.cons_append]
    simp [runLen, isTextChar_of_digit f0 hf0]
  have hX0pc : ¬ (runLen isTextChar (fs ++ ['%']) = 0) := by
    rw [hfs, List.cons_append]
    simp [runLen, isTextChar_of_digit f0 hf0]
  constructor
  · rw [lex_rsml_def,
      show (String.mk ('.' :: (fs ++ ['p', 'x']))).data.length = (fs ++ ['p', 'x']).length + 1
        from by simp,
      show (String.mk ('.' :: (fs ++ ['p', 'x']))).data = '.' :: (fs ++ ['p', 'x']) from rfl]
    apply lexAux_of_pickBest _ _ 4
    have hdropn : ('.' :: (fs ++ ['p', 'x'])).drop (fs.length + 1) = ['p', 'x'] := by
      rw [List.drop_succ_cons, List.drop_left]
    have htkn : ('.' :: (fs ++ ['p', 'x'])).take (fs.length + 1) = '.' :: fs := by
      rw [List.take_succ_cons, List.take_left]
    have htka : ('.' :: (fs ++ ['p', 'x'])).take (fs.length + 1 + 2) = '.' :: (fs ++ ['p', 'x']) :=
      List.take_of_length_le (by simp)
    have hclip : str_clip ('.' :: (fs ++ ['p', 'x'])) 0 2 = '.' :: fs := by
      simp only [str_clip, List.drop_zero]
      rw [show ('.' :: (fs ++ ['p', 'x'])).length - 2 - 0 = fs.length + 1 from by simp, htkn]
    have hr : runLen isTextChar (fs ++ ['p', 'x']) ≤ fs.length + 2 := by
      have := runLen_le isTextChar (fs ++ ['p', 'x'])
      simpa using this
    have hcands : candidates ('.' :: (fs ++ ['p', 'x'])) =
        [(1 + runLen isTextChar (fs ++ ['p', 'x']), 1,
            some (Token.Text (TextType.SelectorTagOrEnumPart
              (String.mk (str_clip (List.take (1 + runLen isTextChar (fs ++ ['p', 'x']))
                ('.' :: (fs ++ ['p', 'x']))) 1 0))))),
         (fs.length + 1 + 2, 4,
            some (Token.DataType (DataType.NumberOffset (f64OrZero ('.' :: fs))))),
         (fs.length + 1, 4,
            some (Token.DataType (DataType.Number (f64OrZero ('.' :: fs)))))] := by
      simp +decide [candidates, cand, mSkip, mPref, mSigil, mCommentSingle, mColorTw,
        mColorCss, mColorBc, mColorHex, mString, mNumSuffix, mAsset, digRun, runLen,
        startsWith, hqpx, hdropn, htkn, htka, hclip, hX0px]
    rw [hcands,
      show (fs ++ ['p', 'x']).length + 1 = fs.length + 1 + 2 from by simp <;> omega]
    apply pickBest_second_wins
    · exact better_true_le _ _ (by simp <;> omega) (by simp <;> omega)
    · intro c hc
      rcases List.mem_cons.mp hc with h | h
      · subst h
        exact better_false_len _ _ (by simp <;> omega) (by simp <;> omega)
      · simp at h
  · rw [lex_rsml_def,
      show (String.mk ('.' :: (fs ++ ['%']))).data.length = (fs ++ ['%']).length + 1
        from by simp,
      show (String.mk ('.' :: (fs ++ ['%']))).data = '.' :: (fs ++ ['%']) from rfl]
    apply lexAux_of_pickBest _ _ 4
    have hdropn : ('.' :: (fs ++ ['%'])).drop (fs.length + 1) = ['%'] := by
      rw [List.drop_succ_cons, List.drop_left]
    have htkn : ('.' :: (fs ++ ['%'])).take (fs.length + 1) = '.' :: fs := by
      rw [List.take_succ_cons, List.take_left]
    have htka : ('.' :: (fs ++ ['%'])).take (fs.length + 1 + 1) = '.' :: (fs ++ ['%']) :=
      List.take_of_length_le (by simp)
    have hclip : str_clip ('.' :: (fs ++ ['%'])) 0 1 = '.' :: fs := by
      simp only [str_clip, List.drop_zero]
      rw [show ('.' :: (fs ++ ['%'])).length - 1 - 0 = fs.length + 1 from by simp, htkn]
    have hr : runLen isTextChar (fs ++ ['%']) ≤ fs.length + 1 := by
      have := runLen_le isTextChar (fs ++ ['%'])
      simpa using this
    have hcands : candidates ('.' :: (fs ++ ['%'])) =
        [(1 + runLen isTextChar (fs ++ ['%']), 1,
            some (Token.Text (TextType.SelectorTagOrEnumPart
              (String.mk (str_clip (List.take (1 + runLen isTextChar (fs ++ ['%']))
                ('.' :: (fs ++ ['%']))) 1 0))))),
         (fs.length + 1 + 1, 4,
            some (Token.DataType (DataType.NumberScale (scaleOrZero ('.' :: fs))))),
         (fs.length + 1, 4,
            some (Token.DataType (DataType.Number (f64OrZero ('.' :: fs)))))] := by
      simp +decide [candidates, cand, mSkip, mPref, mSigil, mCommentSingle, mColorTw,
        mColorCss, mColorBc, mColorHex, mString, mNumSuffix, mAsset, digRun, runLen,
        startsWith, hqpc, hdropn, htkn, htka, hclip, hX0pc]
    rw [hcands,
      show (fs ++ ['%']).length + 1 = fs.length + 1 + 1 from by simp]
    apply pickBest_second_wins
    · exact better_true_le _ _ (by simp <;> omega) (by simp <;> omega)
    · intro c hc
      rcases List.mem_cons.mp hc with h | h
      · subst h
        exact better_false_len _ _ (by simp <;> omega) (by simp <;> omega)
      · simp at h

theorem head_not_sign (X : List Char) (x0 : Char) (t : List Char) (hX : X = x0 :: t)
    (hx0 : Char.isDigit x0 = true ∨ x0 = '.') :
    startsWith ['+'] X = false ∧ startsWith ['-'] X = false := by
  subst hX
  rcases hx0 with h | h
  · constructor
    · simp [startsWith, beq_false_of_digit '+' x0 (by decide) h]
    · simp [startsWith, beq_false_of_digit '-' x0 (by decide) h]
  · subst h
    refine ⟨?_, ?_⟩ <;> simp +decide [startsWith]

/-- `str::parse::<f64>` succeeds on a signed dotless mantissa. -/
theorem parseF64Opt_nodot (sgn : List Char) (hsgn : sgn = [] ∨ sgn = ['+'] ∨ sgn = ['-'])
    (ds : List Char) (hds : ∀ c ∈ ds, Char.isDigit c = true) (hdsne : ds ≠ []) :
    (parseF64Opt (sgn ++ ds)).isSome = true := by
  have hd : digRun ds = ds.length := runLen_of_all _ _ hds
  have hlds : ds.length ≠ 0 := by simpa [List.length_eq_zero] using hdsne
  have hpos : 0 < ds.length := Nat.pos_of_ne_zero hlds
  have hdrop : ds.drop ds.length = [] := List.drop_length ds
  obtain ⟨d0, ds'', rfl⟩ : ∃ d0 ds'', ds = d0 :: ds'' := by
    cases ds with
    | nil => exact absurd rfl hdsne
    | cons a b => exact ⟨a, b, rfl⟩
  have hda : Char.isDigit d0 = true := hds d0 (by simp)
  have hne1 : ¬ ('-' = d0) := by
    intro h
    rw [← h] at hda
    exact absurd hda (by decide)
  have hne2 : ¬ ('+' = d0) := by
    intro h
    rw [← h] at hda
    exact absurd hda (by decide)
  rcases hsgn with rfl | rfl | rfl
  · simp [parseF64Opt, startsWith, hne1, hne2, hd, hdrop, hpos]
  · simp +decide [parseF64Opt, startsWith, hd, hdrop, hpos]
  · simp +decide [parseF64Opt, startsWith, hd, hdrop, hpos]

/-- `str::parse::<f64>` succeeds on a signed dotted mantissa. -/
theorem parseF64Opt_dot (sgn : List Char) (hsgn : sgn = [] ∨ sgn = ['+'] ∨ sgn = ['-'])
    (ds fs : List Char) (hds : ∀ c ∈ ds, Char.isDigit c = true)
    (hfs : ∀ c ∈ fs, Char.isDigit c = true) (hne : ds ≠ [] ∨ fs ≠ []) :
    (parseF64Opt (sgn ++ (ds ++ '.' :: fs))).isSome = true := by
  have h0 : digRun ('.' :: fs) = 0 := runLen_cons_neg _ _ _ (by decide)
  have hd : digRun (ds ++ '.' :: fs) = ds.length := by
    rw [digRun_append_of_all ds _ hds, h0]
    omega
  have hdrop : (ds ++ '.' :: fs).drop ds.length = '.' :: fs := List.drop_left ds _
  have hf : digRun fs = fs.length := runLen_of_all _ _ hfs
  have hfd : fs.drop fs.length = [] := List.drop_length fs
  have hposdf : 0 < ds.length + fs.length := by
    rcases hne with h | h
    · have : ds.length ≠ 0 := by simpa [List.length_eq_zero] using h
      omega
    · have : fs.length ≠ 0 := by simpa [List.length_eq_zero] using h
      omega
  rcases hsgn with rfl | rfl | rfl
  · cases hde : ds with
    | nil =>
      subst hde
      have hposf : 0 < fs.length := by simpa using hposdf
      simp +decide [parseF64Opt, startsWith, h0, hf, hfd, hposf] <;> omega
    | cons a b =>
      have ha : Char.isDigit a = true := hds a (by rw [hde]; simp)
      have hne1 : ¬ ('-' = a) := by
        intro h
        rw [← h] at ha
        exact absurd ha (by decide)
      have hne2 : ¬ ('+' = a) := by
        intro h
        rw [← h] at ha
        exact absurd ha (by decide)
      subst hde
      have hd2 : digRun (a :: (b ++ '.' :: fs)) = b.length + 1 := by
        have := hd
        rw [show (a :: b) ++ '.' :: fs = a :: (b ++ '.' :: fs) from rfl] at this
        rw [this]
        simp
      have hdrop2 : List.drop (b.length + 1) (a :: (b ++ '.' :: fs)) = '.' :: fs := by
        rw [List.drop_succ_cons, List.drop_left]
      simp [parseF64Opt, startsWith, hne1, hne2, hd2, hdrop2, hf, hfd, hposdf] <;> omega
  · simp +decide [parseF64Opt, startsWith, hd, hdrop, hf, hfd, hposdf] <;> omega
  · simp +decide [parseF64Opt, startsWith, hd, hdrop, hf, hfd, hposdf] <;> omega

/-- C3 — for every numeric literal mantissa (optional sign, digits with an
optional fractional part), the lexeme with a `px` suffix lexes to a single
`NumberOffset` token whose value is the parsed mantissa unchanged, and with
a `%` suffix to a single `NumberScale` token whose value is the parsed
mantissa divided by 100; and whenever the parse of a clipped mantissa
fails, the stored value is `0.0` and the scan does not fail. -/
theorem c3_number_suffix_values : ∀ sgn : String, (sgn = "" ∨ sgn = "+" ∨ sgn = "-") →
    ∀ (ds fs : List Char) (hasDot : Bool),
    (∀ c ∈ ds, Char.isDigit c = true) → (∀ c ∈ fs, Char.isDigit c = true) →
    (if hasDot then ds ≠ [] ∨ fs ≠ [] else ds ≠ [] ∧ fs = []) →
    ∃ q : ℚ,
      parseF64Opt (sgn.data ++ ds ++ (if hasDot then '.' :: fs else [])) = some q
        ∧ lex_rsml (String.mk
            (sgn.data ++ ds ++ (if hasDot then '.' :: fs else []) ++ ['p', 'x']))
          = [Token.DataType (DataType.NumberOffset q)]
        ∧ lex_rsml (String.mk
            (sgn.data ++ ds ++ (if hasDot then '.' :: fs else []) ++ ['%']))
          = [Token.DataType (DataType.NumberScale (q / 100))]
        ∧ ∀ cs : List Char, parseF64Opt cs = none → f64OrZero cs = 0 ∧ scaleOrZero cs = 0 := by
  intro sgn hsgn ds fs hasDot hds hfs hshape
  have hfallback : ∀ cs : List Char, parseF64Opt cs = none →
      f64OrZero cs = 0 ∧ scaleOrZero cs = 0 := by
    intro cs hnone
    exact ⟨by simp [f64OrZero, hnone], by simp [scaleOrZero, hnone]⟩
  cases hasDot with
  | false =>
    obtain ⟨hdsne, hfse⟩ : ds ≠ [] ∧ fs = [] := hshape
    simp only [Bool.false_eq_true, if_false, List.append_nil]
    obtain ⟨d0, ds'', rfl⟩ : ∃ d0 ds'', ds = d0 :: ds'' := by
      cases ds with
      | nil => exact absurd rfl hdsne
      | cons a b => exact ⟨a, b, rfl⟩
    have hd0 : Char.isDigit d0 = true := hds d0 (by simp)
    have hnspx : numCoreLenNoSign ((d0 :: ds'') ++ ['p', 'x']) = some (d0 :: ds'').length :=
      numCoreLenNoSign_nodot _ _ hds hdsne (by decide) (by decide)
    have hnspc : numCoreLenNoSign ((d0 :: ds'') ++ ['%']) = some (d0 :: ds'').length :=
      numCoreLenNoSign_nodot _ _ hds hdsne (by decide) (by decide)
    have hsignpx := head_not_sign ((d0 :: ds'') ++ ['p', 'x']) d0 (ds'' ++ ['p', 'x']) (by simp)
      (Or.inl hd0)
    have hsignpc := head_not_sign ((d0 :: ds'') ++ ['%']) d0 (ds'' ++ ['%']) (by simp)
      (Or.inl hd0)
    rcases hsgn with rfl | rfl | rfl
    · have hq1 : numCoreLen (d0 :: (ds'' ++ ['p', 'x'])) = some (ds''.length + 1) := by
        have := numCoreLen_of_nosign _ _ hsignpx.1 hsignpx.2 hnspx
        simpa using this
      have hq2 : numCoreLen (d0 :: (ds'' ++ ['%'])) = some (ds''.length + 1) := by
        have := numCoreLen_of_nosign _ _ hsignpc.1 hsignpc.2 hnspc
        simpa using this
      have hp := parseF64Opt_nodot [] (Or.inl rfl) (d0 :: ds'') hds hdsne
      rw [List.nil_append] at hp
      obtain ⟨q, hq⟩ := Option.isSome_iff_exists.mp hp
      have hlex := lex_num_digit d0 hd0 ds'' hq1 hq2
      refine ⟨q, ?_, ?_, ?_, hfallback⟩
      · simpa using hq
      · rw [show ("" : String).data ++ (d0 :: ds'') ++ ['p', 'x'] =
            d0 :: (ds'' ++ ['p', 'x']) from by simp, hlex.1]
        simp [f64OrZero, hq]
      · rw [show ("" : String).data ++ (d0 :: ds'') ++ ['%'] =
            d0 :: (ds'' ++ ['%']) from by simp, hlex.2]
        simp [scaleOrZero, hq]
    · have hq1 : numCoreLen ('+' :: ((d0 :: ds'') ++ ['p', 'x'])) =
          some ((d0 :: ds'').length + 1) :=
        numCoreLen_of_sign '+' (Or.inl rfl) _ _ hnspx
      have hq2 : numCoreLen ('+' :: ((d0 :: ds'') ++ ['%'])) =
          some ((d0 :: ds'').length + 1) :=
        numCoreLen_of_sign '+' (Or.inl rfl) _ _ hnspc
      have hp := parseF64Opt_nodot ['+'] (Or.inr (Or.inl rfl)) (d0 :: ds'') hds hdsne
      obtain ⟨q, hq⟩ := Option.isSome_iff_exists.mp hp
      rw [show (['+'] ++ (d0 :: ds'') : List Char) = '+' :: (d0 :: ds'') from rfl] at hq
      have hlex := lex_num_plus (d0 :: ds'') (by simpa using hq1) (by simpa using hq2)
      refine ⟨q, ?_, ?_, ?_, hfallback⟩
      · simpa using hq
      · rw [show ("+" : String).data ++ (d0 :: ds'') ++ ['p', 'x'] =
            '+' :: ((d0 :: ds'') ++ ['p', 'x']) from by simp, hlex.1]
        simp [f64OrZero, hq]
      · rw [show ("+" : String).data ++ (d0 :: ds'') ++ ['%'] =
            '+' :: ((d0 :: ds'') ++ ['%']) from by simp, hlex.2]
        simp [scaleOrZero, hq]
    · have hq1 : numCoreLen ('-' :: ((d0 :: ds'') ++ ['p', 'x'])) =
          some ((d0 :: ds'').length + 1) :=
        numCoreLen_of_sign '-' (Or.inr rfl) _ _ hnspx
      have hq2 : numCoreLen ('-' :: ((d0 :: ds'') ++ ['%'])) =
          some ((d0 :: ds'').length + 1) :=
        numCoreLen_of_sign '-' (Or.inr rfl) _ _ hnspc
      have hp := parseF64Opt_nodot ['-'] (Or.inr (Or.inr rfl)) (d0 :: ds'') hds hdsne
      obtain ⟨q, hq⟩ := Option.isSome_iff_exists.mp hp
      rw [show (['-'] ++ (d0 :: ds'') : List Char) = '-' :: (d0 :: ds'') from rfl] at hq
      have hlex := lex_num_minus (d0 :: ds'') d0 ds'' rfl (Or.inl hd0)
        (by simpa using hq1) (by simpa using hq2)
      refine ⟨q, ?_, ?_, ?_, hfallback⟩
      · simpa using hq
      · rw [show ("-" : String).data ++ (d0 :: ds'') ++ ['p', 'x'] =
            '-' :: ((d0 :: ds'') ++ ['p', 'x']) from by simp, hlex.1]
        simp [f64OrZero, hq]
      · rw [show ("-" : String).data ++ (d0 :: ds'') ++ ['%'] =
            '-' :: ((d0 :: ds'') ++ ['%']) from by simp, hlex.2]
        simp [scaleOrZero, hq]
  | true =>
    have hne : ds ≠ [] ∨ fs ≠ [] := hshape
    rw [show (if (true : Bool) then '.' :: fs else ([] : List Char)) = '.' :: fs from rfl]
    have hnspx : numCoreLenNoSign (ds ++ ('.' :: fs) ++ ['p', 'x']) =
        some (ds.length + 1 + fs.length) :=
      numCoreLenNoSign_dot ds fs _ hds hfs hne (by decide) (by decide)
    have hnspc : numCoreLenNoSign (ds ++ ('.' :: fs) ++ ['%']) =
        some (ds.length + 1 + fs.length) :=
      numCoreLenNoSign_dot ds fs _ hds hfs hne (by decide) (by decide)
    have hheadfact : ∃ t0 t', ds ++ '.' :: fs = t0 :: t' ∧
        (Char.isDigit t0 = true ∨ t0 = '.') := by
      cases hde : ds with
      | nil => exact ⟨'.', fs, by simp, Or.inr rfl⟩
      | cons a b =>
        exact ⟨a, b ++ '.' :: fs, by simp, Or.inl (hds a (by rw [hde]; simp))⟩
    obtain ⟨t0, t', ht, ht0⟩ := hheadfact
    have hsignpx := head_not_sign (ds ++ '.' :: fs ++ ['p', 'x']) t0 (t' ++ ['p', 'x'])
      (by rw [show ds ++ '.' :: fs ++ ['p', 'x'] = (ds ++ '.' :: fs) ++ ['p', 'x'] from by simp,
          ht]; simp) ht0
    have hsignpc := head_not_sign (ds ++ '.' :: fs ++ ['%']) t0 (t' ++ ['%'])
      (by rw [show ds ++ '.' :: fs ++ ['%'] = (ds ++ '.' :: fs) ++ ['%'] from by simp,
          ht]; simp) ht0
    have hlent : (ds ++ '.' :: fs).length = ds.length + 1 + fs.length := by
      simp
      omega
    rcases hsgn with rfl | rfl | rfl
    · have hp := parseF64Opt_dot [] (Or.inl rfl) ds fs hds hfs hne
      simp only [List.nil_append] at hp
      obtain ⟨q, hq⟩ := Option.isSome_iff_exists.mp hp
      have hq1 : numCoreLen ((ds ++ '.' :: fs) ++ ['p', 'x']) =
          some ((ds ++ '.' :: fs).length) := by
        rw [numCoreLen_of_nosign _ _ (by simpa using hsignpx.1) (by simpa using hsignpx.2)
          (by simpa using hnspx), hlent]
      have hq2 : numCoreLen ((ds ++ '.' :: fs) ++ ['%']) =
          some ((ds ++ '.' :: fs).length) := by
        rw [numCoreLen_of_nosign _ _ (by simpa using hsignpc.1) (by simpa using hsignpc.2)
          (by simpa using hnspc), hlent]
      cases hde : ds with
      | nil =>
        subst hde
        simp only [List.nil_append] at hq
        obtain ⟨f0, fs', hfseq⟩ : ∃ f0 fs', fs = f0 :: fs' := by
          cases fs with
          | nil => rcases hne with h | h
                   · exact absurd rfl h
                   · exact absurd rfl h
          | cons a b => exact ⟨a, b, rfl⟩
        have hlex := lex_num_dot f0 fs' (hfs f0 (by rw [hfseq]; simp)) fs hfseq
          (by simpa using hq1) (by simpa using hq2)
        refine ⟨q, ?_, ?_, ?_, hfallback⟩
        · simpa using hq
        · rw [show ("" : String).data ++ [] ++ '.' :: fs ++ ['p', 'x'] =
              '.' :: (fs ++ ['p', 'x']) from by simp, hlex.1]
          simp [f64OrZero, hq]
        · rw [show ("" : String).data ++ [] ++ '.' :: fs ++ ['%'] =
              '.' :: (fs ++ ['%']) from by simp, hlex.2]
          simp [scaleOrZero, hq]
      | cons a b =>
        have ha : Char.isDigit a = true := hds a (by rw [hde]; simp)
        subst hde
        rw [show ((a :: b) ++ '.' :: fs : List Char) = a :: (b ++ '.' :: fs) from rfl] at hq
        have hlex := lex_num_digit a ha (b ++ '.' :: fs)
          (by simpa using hq1) (by simpa using hq2)
        refine ⟨q, ?_, ?_, ?_, hfallback⟩
        · simpa using hq
        · rw [show ("" : String).data ++ (a :: b) ++ '.' :: fs ++ ['p', 'x'] =
              a :: ((b ++ '.' :: fs) ++ ['p', 'x']) from by simp, hlex.1]
          simp [f64OrZero, hq]
        · rw [show ("" : String).data ++ (a :: b) ++ '.' :: fs ++ ['%'] =
              a :: ((b ++ '.' :: fs) ++ ['%']) from by simp, hlex.2]
          simp [scaleOrZero, hq]
    · have hp := parseF64Opt_dot ['+'] (Or.inr (Or.inl rfl)) ds fs hds hfs hne
      obtain ⟨q, hq⟩ := Option.isSome_iff_exists.mp hp
      rw [show (['+'] ++ (ds ++ '.' :: fs) : List Char) = '+' :: (ds ++ '.' :: fs) from rfl] at hq
      have hq1 : numCoreLen ('+' :: ((ds ++ '.' :: fs) ++ ['p', 'x'])) =
          some ((ds ++ '.' :: fs).length + 1) := by
        rw [numCoreLen_of_sign '+' (Or.inl rfl) _ _ (by simpa using hnspx), hlent]
      have hq2 : numCoreLen ('+' :: ((ds ++ '.' :: fs) ++ ['%'])) =
          some ((ds ++ '.' :: fs).length + 1) := by
        rw [numCoreLen_of_sign '+' (Or.inl rfl) _ _ (by simpa using hnspc), hlent]
      have hlex := lex_num_plus (ds ++ '.' :: fs) hq1 hq2
      refine ⟨q, ?_, ?_, ?_, hfallback⟩
      · simpa using hq
      · rw [show ("+" : String).data ++ ds ++ '.' :: fs ++ ['p', 'x'] =
            '+' :: ((ds ++ '.' :: fs) ++ ['p', 'x']) from by simp, hlex.1]
        simp [f64OrZero, hq]
      · rw [show ("+" : String).data ++ ds ++ '.' :: fs ++ ['%'] =
            '+' :: ((ds ++ '.' :: fs) ++ ['%']) from by simp, hlex.2]
        simp [scaleOrZero, hq]
    · have hp := parseF64Opt_dot ['-'] (Or.inr (Or.inr rfl)) ds fs hds hfs hne
      obtain ⟨q, hq⟩ := Option.isSome_iff_exists.mp hp
      rw [show (['-'] ++ (ds ++ '.' :: fs) : List Char) = '-' :: (ds ++ '.' :: fs) from rfl] at hq
      have hq1 : numCoreLen ('-' :: ((ds ++ '.' :: fs) ++ ['p', 'x'])) =
          some ((ds ++ '.' :: fs).length + 1) := by
        rw [numCoreLen_of_sign '-' (Or.inr rfl) _ _ (by simpa using hnspx), hlent]
      have hq2 : numCoreLen ('-' :: ((ds ++ '.' :: fs) ++ ['%'])) =
          some ((ds ++ '.' :: fs).length + 1) := by
        rw [numCoreLen_of_sign '-' (Or.inr rfl) _ _ (by simpa using hnspc), hlent]
      have hlex := lex_num_minus (ds ++ '.' :: fs) t0 t' ht ht0 hq1 hq2
      refine ⟨q, ?_, ?_, ?_, hfallback⟩
      · simpa using hq
      · rw [show ("-" : String).data ++ ds ++ '.' :: fs ++ ['p', 'x'] =
            '-' :: ((ds ++ '.' :: fs) ++ ['p', 'x']) from by simp, hlex.1]
        simp [f64OrZero, hq]
      · rw [show ("-" : String).data ++ ds ++ '.' :: fs ++ ['%'] =
            '-' :: ((ds ++ '.' :: fs) ++ ['%']) from by simp, hlex.2]
        simp [scaleOrZero, hq]

theorem c3_witness :
    (("1" : String) = "" ∨ ("1" : String) = "+" ∨ ("1" : String) = "-") = False
      ∧ ∃ q : ℚ,
        parseF64Opt (("-" : String).data ++ ['1', '2'] ++ '.' :: ['5']) = some q
          ∧ lex_rsml (String.mk (("-" : String).data ++ ['1', '2'] ++ '.' :: ['5'] ++ ['p', 'x']))
            = [Token.DataType (DataType.NumberOffset q)]
          ∧ lex_rsml (String.mk (("-" : String).data ++ ['1', '2'] ++ '.' :: ['5'] ++ ['%']))
            = [Token.DataType (DataType.NumberScale (q / 100))]
          ∧ ∀ cs : List Char, parseF64Opt cs = none → f64OrZero cs = 0 ∧ scaleOrZero cs = 0 := by
  constructor
  · simp +decide
  · have h := c3_number_suffix_values "-" (Or.inr (Or.inr rfl)) ['1', '2'] ['5'] true
      (by decide) (by decide) (by decide)
    simpa using h

end Rsml